import Mathlib

/-!
Verification development for the ZUMBLE session and routing core.

The Rust registry (`src/state.rs`), janitor (`src/clean.rs`) and control
dispatcher (`src/handler/mod.rs`) are embedded shallowly.  The concurrent
`scc::HashMap` indexes are modelled as association lists whose order stands
for the (arbitrary but fixed) iteration order of the hash map; clients are
shared (`Arc`) between the indexes, which is modelled by storing session ids
in the secondary indexes and channel membership sets and resolving them
through the primary `clients` store.  Broadcasts and per-client sends are
recorded in an event log.
-/

namespace Zumble

/-- Model of `std::net::SocketAddr`: an abstract address identifier. -/
abbrev Addr := Nat

/-- Modelled from the spec (the crypto module `crypt.rs` is not part of the
embedded sources): an authenticated ciphertext carries the identity of the
key it was produced under plus an opaque payload; `decrypt` succeeds exactly
when the key matches (OCB authenticated encryption, spec section 4.1). -/
structure Buf where
  key : Nat
  payload : Nat
deriving DecidableEq, Repr

/-- Modelled from the spec: per-client `CryptState` (spec section 4.1) with
its key material and the `last_good` instant (milliseconds). -/
structure CryptState where
  key : Nat
  lastGood : Nat
deriving DecidableEq, Repr

/-- Modelled from the spec: authenticated decryption succeeds exactly when
the buffer was encrypted under this state's key. -/
def CryptState.decrypt (cs : CryptState) (b : Buf) : Option Nat :=
  if b.key = cs.key then some b.payload else none

/-- The per-session data of `Client` (`client.rs`): current channel id,
optionally bound UDP address, crypto state, egress-mailbox status and the
last-ping instant (milliseconds). -/
structure Client where
  sessionId : Nat
  channelId : Nat
  udpAddr : Option Addr
  crypt : CryptState
  pubClosed : Bool
  lastPing : Nat
deriving DecidableEq, Repr

/-- `Channel` (`channel.rs`): parent id, name, description, temporary flag,
membership (session ids) and listener subscriptions (session ids). -/
structure Channel where
  channelId : Nat
  parentId : Option Nat
  name : String
  description : String
  temporary : Bool
  clients : List Nat
  listeners : List Nat
deriving DecidableEq, Repr

/-- `Channel::new`: fresh channel with empty membership and listeners. -/
def Channel.new (id : Nat) (parent : Option Nat) (name desc : String)
    (temp : Bool) : Channel :=
  ⟨id, parent, name, desc, temp, [], []⟩

/-- Observable emissions of the registry: broadcasts (`broadcast_message`)
and per-client sends, recorded in order. -/
inductive Event where
  | userRemove (sid : Nat)
  | channelRemove (cid : Nat)
  | userState (sid : Nat)
  | cryptSetup (sid : Nat)
  | disconnectSignal (sid : Nat)
deriving DecidableEq, Repr

/-- Lookup in an association list with `Nat` keys (`HashMap::get`). -/
def lookupA {β : Type} (l : List (Nat × β)) (k : Nat) : Option β :=
  match l with
  | [] => none
  | (k', v) :: rest => if k' = k then some v else lookupA rest k

/-- Removal from an association list (`HashMap::remove`). -/
def removeA {β : Type} (l : List (Nat × β)) (k : Nat) : List (Nat × β) :=
  l.filter (fun e => e.1 ≠ k)

/-- Insert-or-replace in an association list (`HashMap::upsert`); replaces
in place, appends a fresh key at the end of the iteration order. -/
def upsertA {β : Type} (l : List (Nat × β)) (k : Nat) (v : β) :
    List (Nat × β) :=
  match l with
  | [] => [(k, v)]
  | (k', v') :: rest =>
    if k' = k then (k, v) :: rest else (k', v') :: upsertA rest k v

/-- Insert a session id into an id set (`HashMap::upsert` on a map whose
values are shared references, so only key presence matters). -/
def insertId (l : List Nat) (k : Nat) : List Nat :=
  if k ∈ l then l else l ++ [k]

/-- Remove a session id from an id set (`HashMap::remove` / `retain`). -/
def removeId (l : List Nat) (k : Nat) : List Nat :=
  l.filter (fun x => x ≠ k)

/-- `ServerState` (`state.rs`): the registry indexes, the channel map, the
id counters and the event log of emitted messages. -/
structure ServerState where
  clients : List (Nat × Client)
  clientsWithoutUdp : List Nat
  clientsBySocket : List (Addr × Nat)
  channels : List (Nat × Channel)
  sessionCount : Nat
  channelCount : Nat
  events : List Event
deriving DecidableEq, Repr

/-- `ServerState::new`: empty registry with the pre-created Root channel and
both id counters starting at 1. -/
def initState : ServerState :=
  { clients := []
    clientsWithoutUdp := []
    clientsBySocket := []
    channels := [(0, Channel.new 0 (some 0) "Root" "Root channel" false)]
    sessionCount := 1
    channelCount := 1
    events := [] }

namespace ServerState

/-- Resolve a session id through the primary `clients` store. -/
def getClient (st : ServerState) (sid : Nat) : Option Client :=
  lookupA st.clients sid

/-- Mutate the shared per-session data (an `Arc` field update seen through
every index). -/
def updateClient (st : ServerState) (sid : Nat) (f : Client → Client) :
    ServerState :=
  { st with
    clients := st.clients.map (fun e => if e.1 = sid then (e.1, f e.2) else e) }

/-- `ServerState::add_client`: allocate the next session id, create the
client in channel 0 with no UDP binding, insert it into `clients` and
`clients_without_udp`.  Returns the new session id. -/
def addClient (st : ServerState) (crypt : CryptState) (lastPing : Nat) :
    Nat × ServerState :=
  let sid := st.sessionCount
  let c : Client := ⟨sid, 0, none, crypt, false, lastPing⟩
  (sid,
    { st with
      sessionCount := sid + 1
      clients := upsertA st.clients sid c
      clientsWithoutUdp := insertId st.clientsWithoutUdp sid })

/-- `ServerState::add_channel`: allocate the next channel id and insert a
fresh channel with the given parent. -/
def addChannel (st : ServerState) (parent : Nat) (name desc : String)
    (temp : Bool) : Nat × ServerState :=
  let cid := st.channelCount
  (cid,
    { st with
      channelCount := cid + 1
      channels := upsertA st.channels cid (Channel.new cid (some parent) name desc temp) })

/-- `ServerState::set_client_socket`: swap the session's bound address; if a
previous address existed remove its `clients_by_socket` entry, then insert
the new binding. -/
def setClientSocket (st : ServerState) (sid : Nat) (addr : Addr) :
    ServerState :=
  match st.getClient sid with
  | none => st
  | some c =>
    let old := c.udpAddr
    let st1 := st.updateClient sid (fun cl => { cl with udpAddr := some addr })
    let st2 :=
      match old with
      | some a => { st1 with clientsBySocket := removeA st1.clientsBySocket a }
      | none => st1
    { st2 with clientsBySocket := upsertA st2.clientsBySocket addr sid }

/-- The scan loop of `ServerState::find_client_with_decrypt`: walk the
`clients_without_udp` iteration order, attempt decryption against each
entry, and on the first success bind the socket and stop. -/
def findLoop (st : ServerState) (b : Buf) (addr : Addr) :
    List Nat → Option ((Nat × Nat) × ServerState)
  | [] => none
  | sid :: rest =>
    match st.getClient sid with
    | none => findLoop st b addr rest
    | some c =>
      match c.crypt.decrypt b with
      | some p => some ((sid, p), st.setClientSocket sid addr)
      | none => findLoop st b addr rest

/-- `ServerState::find_client_with_decrypt`: scan `clients_without_udp`; on
the first successful decrypt, bind the socket, remove the session from
`clients_without_udp` and return it with the decoded payload; otherwise
return `none` with the state untouched. -/
def findClientWithDecrypt (st : ServerState) (b : Buf) (addr : Addr) :
    Option (Nat × Nat) × ServerState :=
  match findLoop st b addr st.clientsWithoutUdp with
  | some ((sid, p), st') =>
    (some (sid, p),
      { st' with clientsWithoutUdp := removeId st'.clientsWithoutUdp sid })
  | none => (none, st)

/-- `ServerState::reset_client_crypt`: re-insert the session into
`clients_without_udp`, clear its bound address, remove the
`clients_by_socket` entry of the old address if one existed, and send a
CryptSetup to the client. -/
def resetClientCrypt (st : ServerState) (sid : Nat) : ServerState :=
  match st.getClient sid with
  | none => st
  | some c =>
    let st1 := { st with clientsWithoutUdp := insertId st.clientsWithoutUdp sid }
    let st2 := st1.updateClient sid (fun cl => { cl with udpAddr := none })
    let st3 :=
      match c.udpAddr with
      | some a => { st2 with clientsBySocket := removeA st2.clientsBySocket a }
      | none => st2
    { st3 with events := st3.events ++ [Event.cryptSetup sid] }

/-- `ServerState::handle_client_left_channel`: if the channel exists, drop
the session from its membership; an existing channel survives when its
parent id is `None`, or when it is not temporary, or when members remain.
Otherwise (including when the channel id is absent from the map) the id is
removed from the channel map and a ChannelRemove is broadcast. -/
def handleClientLeftChannel (st : ServerState) (sid : Nat) (leaveId : Nat) :
    Option Nat × ServerState :=
  match lookupA st.channels leaveId with
  | some ch =>
    let ch' := { ch with clients := removeId ch.clients sid }
    let st1 := { st with channels := upsertA st.channels leaveId ch' }
    match ch.parentId with
    | none => (none, st1)
    | some _ =>
      if !ch.temporary || !ch'.clients.isEmpty then (none, st1)
      else
        (some leaveId,
          { st1 with
            channels := removeA st1.channels leaveId
            events := st1.events ++ [Event.channelRemove leaveId] })
  | none =>
    (some leaveId,
      { st with
        channels := removeA st.channels leaveId
        events := st.events ++ [Event.channelRemove leaveId] })

/-- The only error the embedded operations surface. -/
inductive Err where
  | channelDoesntExist
deriving DecidableEq, Repr

/-- `ServerState::set_client_channel`: swap the client's `channel_id` to the
target (`Client::join_channel`), then look the target up; if it is absent
return `ChannelDoesntExist` (the swapped `channel_id` persists).  Otherwise
insert the client into the target's membership, broadcast its UserState, and
unless the target equals the left channel run the leave logic. -/
def setClientChannel (st : ServerState) (sid : Nat) (chan : Nat) :
    Option Err × ServerState :=
  match st.getClient sid with
  | none => (none, st)
  | some c =>
    let leaveId := c.channelId
    let st1 := st.updateClient sid (fun cl => { cl with channelId := chan })
    match lookupA st1.channels chan with
    | none => (some Err.channelDoesntExist, st1)
    | some ch =>
      let st2 :=
        { st1 with
          channels := upsertA st1.channels chan { ch with clients := insertId ch.clients sid } }
      let st3 := { st2 with events := st2.events ++ [Event.userState sid] }
      if leaveId = chan then (none, st3)
      else (none, (st3.handleClientLeftChannel sid leaveId).2)

/-- `ServerState::disconnect`: remove the session from `clients` and
`clients_without_udp`, drop its listener subscriptions from every channel;
if the session was present, signal its mailbox, remove its UDP binding, and
broadcast `UserRemove` followed by the channel-leave logic. -/
def disconnect (st : ServerState) (sid : Nat) : ServerState :=
  let cOpt := st.getClient sid
  let st1 :=
    { st with
      clients := removeA st.clients sid
      clientsWithoutUdp := removeId st.clientsWithoutUdp sid
      channels :=
        st.channels.map (fun e => (e.1, { e.2 with listeners := removeId e.2.listeners sid })) }
  match cOpt with
  | none => st1
  | some c =>
    let st2 := { st1 with events := st1.events ++ [Event.disconnectSignal sid] }
    let st3 :=
      match c.udpAddr with
      | some a => { st2 with clientsBySocket := removeA st2.clientsBySocket a }
      | none => st2
    let st4 := { st3 with events := st3.events ++ [Event.userRemove sid] }
    (st4.handleClientLeftChannel sid c.channelId).2

/-- One iteration of the classification loop of `clean_run` (`clean.rs`):
`can_reset_crypt` starts true; a closed mailbox pushes the session onto the
removal queue and blocks the reset, as does a ping older than 30 whole
seconds (`duration.as_secs() > 30`); a session still resettable whose
`last_good` is more than 8000 ms old (`as_millis() > 8000`) is pushed onto
the crypto-reset queue. -/
def cleanStep (now : Nat) (acc : List Nat × List Nat) (e : Nat × Client) :
    List Nat × List Nat :=
  let closed := e.2.pubClosed
  let timeout : Bool := decide (30 < (now - e.2.lastPing) / 1000)
  let rem1 := if closed then acc.1 ++ [e.1] else acc.1
  let rem2 := if timeout then rem1 ++ [e.1] else rem1
  let rst :=
    if !closed && !timeout && decide (8000 < now - e.2.crypt.lastGood) then
      acc.2 ++ [e.1]
    else acc.2
  (rem2, rst)

/-- The classification pass of `clean_run` (`clean.rs`): one scan over
`clients` producing the removal queue and the crypto-reset queue. -/
def cleanScan (st : ServerState) (now : Nat) : List Nat × List Nat :=
  st.clients.foldl (cleanStep now) ([], [])

/-- `clean_run`: classify every client, then perform the queued crypto
resets followed by the queued disconnects. -/
def cleanRun (st : ServerState) (now : Nat) : ServerState :=
  let scanned := st.cleanScan now
  let st1 := scanned.2.foldl (fun s sid => s.resetClientCrypt sid) st
  scanned.1.foldl (fun s sid => s.disconnect sid) st1

end ServerState

/-- The Mumble control-message kinds the server knows (spec section 6). -/
inductive MessageKind where
  | version
  | udpTunnel
  | authenticate
  | ping
  | channelRemove
  | channelState
  | userRemove
  | userState
  | cryptSetup
  | permissionQuery
  | codecVersion
  | voiceTarget
deriving DecidableEq, Repr

/-- Modelled from the spec (the `proto` module is not part of the embedded
sources): `MessageKind::try_from` on the wire `u16`, defined on exactly the
kind codes of spec section 6 and failing on every other value. -/
def MessageKind.tryFromU16 (k : Nat) : Option MessageKind :=
  if k = 0 then some .version
  else if k = 1 then some .udpTunnel
  else if k = 2 then some .authenticate
  else if k = 3 then some .ping
  else if k = 7 then some .channelRemove
  else if k = 8 then some .channelState
  else if k = 9 then some .userRemove
  else if k = 10 then some .userState
  else if k = 15 then some .cryptSetup
  else if k = 20 then some .permissionQuery
  else if k = 21 then some .codecVersion
  else if k = 22 then some .voiceTarget
  else none

/-- Outcome of one dispatch in `MessageHandler::handle`. -/
inductive HandleOutcome where
  | dispatched (mk : MessageKind)
  | ignored (mk : MessageKind)
deriving DecidableEq, Repr

/-- Errors `MessageHandler::handle` can propagate: a kind value that is not
a `MessageKind` (the `?` on `MessageKind::try_from`), or an error from an
inner handler. -/
inductive HandleError where
  | unknownKind (k : Nat)
  | handler
deriving DecidableEq, Repr

/-- The frame-dispatch arm of `MessageHandler::handle` (`handler/mod.rs`):
convert the 2-byte kind with `MessageKind::try_from` (propagating its error
with `?`), dispatch the nine supported kinds to their handlers (abstracted
as `inner`), and log-and-ignore the remaining valid kinds with success. -/
def messageHandlerHandle (inner : MessageKind → Except HandleError HandleOutcome)
    (kind : Nat) : Except HandleError HandleOutcome :=
  match MessageKind.tryFromU16 kind with
  | none => Except.error (HandleError.unknownKind kind)
  | some mk =>
    match mk with
    | .version => inner .version
    | .udpTunnel => inner .udpTunnel
    | .authenticate => inner .authenticate
    | .ping => inner .ping
    | .channelState => inner .channelState
    | .cryptSetup => inner .cryptSetup
    | .permissionQuery => inner .permissionQuery
    | .userState => inner .userState
    | .voiceTarget => inner .voiceTarget
    | mk => Except.ok (HandleOutcome.ignored mk)

/-- A default inner dispatcher used to instantiate `messageHandlerHandle`
at concrete inputs. -/
def innerOk : MessageKind → Except HandleError HandleOutcome :=
  fun mk => Except.ok (HandleOutcome.dispatched mk)

/-- One registry transition.  `authenticate` is the admission path: the
hard client cap is modelled from the spec (the authenticate handler that
gates `add_client` is not part of the embedded sources; spec sections 1, 3
and 4.5: admission is refused beyond `MAX_CLIENTS`, here the parameter
`cap`).  The remaining constructors are the registry operations of
`state.rs` and the janitor sweep of `clean.rs`, plus the external events of
a ping update and a mailbox closing. -/
inductive Step (cap : Nat) : ServerState → ServerState → Prop where
  | authenticate (st : ServerState) (crypt : CryptState) (lastPing : Nat)
      (h : st.clients.length < cap) :
      Step cap st (st.addClient crypt lastPing).2
  | addChannel (st : ServerState) (parent : Nat) (name desc : String) (temp : Bool) :
      Step cap st (st.addChannel parent name desc temp).2
  | setSocket (st : ServerState) (sid : Nat) (addr : Addr) :
      Step cap st (st.setClientSocket sid addr)
  | findDecrypt (st : ServerState) (b : Buf) (addr : Addr) :
      Step cap st (st.findClientWithDecrypt b addr).2
  | resetCrypt (st : ServerState) (sid : Nat) :
      Step cap st (st.resetClientCrypt sid)
  | setChannel (st : ServerState) (sid chan : Nat) :
      Step cap st (st.setClientChannel sid chan).2
  | disconnect (st : ServerState) (sid : Nat) :
      Step cap st (st.disconnect sid)
  | clean (st : ServerState) (now : Nat) :
      Step cap st (st.cleanRun now)
  | ping (st : ServerState) (sid now : Nat) :
      Step cap st (st.updateClient sid (fun c => { c with lastPing := now }))
  | closeMailbox (st : ServerState) (sid : Nat) :
      Step cap st (st.updateClient sid (fun c => { c with pubClosed := true }))

/-- The states reachable from the fresh server state. -/
inductive Reachable (cap : Nat) : ServerState → Prop where
  | init : Reachable cap initState
  | step {s t : ServerState} : Reachable cap s → Step cap s t → Reachable cap t

/-- The result component of scanning the awaiting-UDP set: the first session
whose crypto state decrypts the buffer, with the decoded payload.  This is
the specification-side description of what `find_client_with_decrypt`
returns. -/
def scanAwaiting (st : ServerState) (b : Buf) : Option (Nat × Nat) :=
  st.clientsWithoutUdp.findSome? (fun sid =>
    match st.getClient sid with
    | some c => (c.crypt.decrypt b).map (fun p => (sid, p))
    | none => none)

/-- The channel-link invariant of spec section 3: every live session's
`channel_id` names a channel present in the channel map whose membership
contains the session. -/
def channelLink (st : ServerState) : Prop :=
  ∀ e ∈ st.clients, ∃ ch, lookupA st.channels e.2.channelId = some ch ∧ e.1 ∈ ch.clients

instance channelLinkDecidable (st : ServerState) : Decidable (channelLink st) := by
  unfold channelLink
  exact List.decidableBAll _ _

/-- The Root invariant of the channel map: the channel counter has moved
past id 0, channel 0 (Root) is present and not temporary, and every channel
carries a parent id (`Channel::new` is always invoked with `Some`). -/
def chanInv (st : ServerState) : Prop :=
  1 ≤ st.channelCount ∧
  (∃ ch, lookupA st.channels 0 = some ch ∧ ch.temporary = false) ∧
  ∀ e ∈ st.channels, e.2.parentId.isSome = true

/-- The removal queue of one janitor scan, client by client: a session is
pushed once for a closed mailbox and once more for a ping timeout. -/
def remQueue (now : Nat) : List (Nat × Client) → List Nat
  | [] => []
  | e :: rest =>
    ((if e.2.pubClosed then [e.1] else []) ++
      (if decide (30 < (now - e.2.lastPing) / 1000) then [e.1] else [])) ++
      remQueue now rest

/-- The crypto-reset queue of one janitor scan, client by client. -/
def rstQueue (now : Nat) : List (Nat × Client) → List Nat
  | [] => []
  | e :: rest =>
    (if !e.2.pubClosed && !decide (30 < (now - e.2.lastPing) / 1000) &&
        decide (8000 < now - e.2.crypt.lastGood) then [e.1] else []) ++
      rstQueue now rest

/-- Concrete two-session state: session 1 has crypto key 10, session 2 has
crypto key 20, both awaiting UDP. -/
def claim2state : ServerState :=
  ((initState.addClient ⟨10, 0⟩ 0).2.addClient ⟨20, 0⟩ 0).2

/-- Concrete state for the C6 witness: session 1 last pinged at instant 0,
session 2 at 35000 ms with `last_good` at 20000 ms. -/
def claim6state : ServerState :=
  ((initState.addClient ⟨1, 20000⟩ 0).2.addClient ⟨2, 20000⟩ 35000).2

/-- One authenticated session that has joined the Root channel. -/
def claim4base : ServerState :=
  ((initState.addClient ⟨0, 0⟩ 0).2.setClientChannel 1 0).2

/-- The session of `claim4base` after a move to the nonexistent channel 5:
the call returns `ChannelDoesntExist` but the `channel_id` swap persists. -/
def claim4state : ServerState :=
  (claim4base.setClientChannel 1 5).2

/-- `claim4base` with an additional (non-temporary) channel 1. -/
def claim4okstate : ServerState :=
  (claim4base.addChannel 0 "a" "d" false).2

/-- For the C9 witness: `claim4base` with a temporary channel 1 that the
session has joined (so a later move back to Root empties it). -/
def claim9state : ServerState :=
  ((claim4base.addChannel 0 "a" "d" true).2.setClientChannel 1 1).2

/-- Concrete state for C1: after claim2state, session 1 was bound to
address 5 by its first decrypted datagram; session 2 still awaits UDP. -/
def claim1state : ServerState :=
  (claim2state.findClientWithDecrypt ⟨10, 7⟩ 5).2

/-- Concrete state for the C7 witness: one authenticated session bound to
UDP address 5. -/
def claim7witnessState : ServerState :=
  ((initState.addClient ⟨10, 0⟩ 0).2).setClientSocket 1 5

/-- The session data of the client in `claim7witnessState`. -/
def claim7witnessClient : Client :=
  ⟨1, 0, some 5, ⟨10, 0⟩, false, 0⟩

section AListLemmas

variable {β : Type}

theorem lookupA_upsertA_self (l : List (Nat × β)) (k : Nat) (v : β) :
    lookupA (upsertA l k v) k = some v := by
  induction l with
  | nil => simp [upsertA, lookupA]
  | cons e rest ih =>
    by_cases h : e.1 = k
    · simp [upsertA, h, lookupA]
    · simp [upsertA, h, lookupA, ih]

theorem lookupA_upsertA_ne (l : List (Nat × β)) {k k' : Nat} (v : β)
    (h : k' ≠ k) : lookupA (upsertA l k v) k' = lookupA l k' := by
  have hkk' : ¬(k = k') := fun hh => h hh.symm
  induction l with
  | nil => simp [upsertA, lookupA, hkk']
  | cons e rest ih =>
    by_cases he : e.1 = k
    · simp [upsertA, he, lookupA, hkk']
    · simp [upsertA, he, lookupA, ih]

theorem lookupA_removeA_self (l : List (Nat × β)) (k : Nat) :
    lookupA (removeA l k) k = none := by
  induction l with
  | nil => simp [removeA, lookupA]
  | cons e rest ih =>
    by_cases h : e.1 = k
    · simpa [removeA, h] using ih
    · simpa [removeA, lookupA, h] using ih

theorem lookupA_removeA_ne (l : List (Nat × β)) {k k' : Nat}
    (h : k' ≠ k) : lookupA (removeA l k) k' = lookupA l k' := by
  have hkk' : ¬(k = k') := fun hh => h hh.symm
  induction l with
  | nil => simp [removeA, lookupA]
  | cons e rest ih =>
    by_cases he : e.1 = k
    · simp only [removeA, ne_eq, decide_not] at ih ⊢
      simpa [he, lookupA, hkk'] using ih
    · simp only [removeA, ne_eq, decide_not] at ih ⊢
      simp [he, lookupA, ih]

theorem lookupA_eq_none_iff (l : List (Nat × β)) (k : Nat) :
    lookupA l k = none ↔ ∀ e ∈ l, e.1 ≠ k := by
  induction l with
  | nil => simp [lookupA]
  | cons e rest ih =>
    by_cases h : e.1 = k
    · simp [lookupA, h]
    · simp [lookupA, h, ih]

theorem removeA_eq_self {l : List (Nat × β)} {k : Nat}
    (h : lookupA l k = none) : removeA l k = l := by
  rw [lookupA_eq_none_iff] at h
  exact List.filter_eq_self.2 (fun e he => by simpa using h e he)

theorem lookupA_some_mem {l : List (Nat × β)} {k : Nat} {v : β}
    (h : lookupA l k = some v) : (k, v) ∈ l := by
  induction l with
  | nil => simp [lookupA] at h
  | cons e rest ih =>
    by_cases he : e.1 = k
    · rw [lookupA, if_pos he] at h
      rw [Option.some_inj] at h
      subst h
      rcases e with ⟨a, b⟩
      subst he
      exact List.mem_cons_self _ _
    · rw [lookupA, if_neg he] at h
      exact List.mem_cons_of_mem _ (ih h)

theorem mem_upsertA {l : List (Nat × β)} {k : Nat} {v : β} {e : Nat × β}
    (h : e ∈ upsertA l k v) : e = (k, v) ∨ e ∈ l := by
  induction l with
  | nil => simpa [upsertA] using h
  | cons e' rest ih =>
    by_cases he : e'.1 = k
    · rw [upsertA, if_pos he] at h
      rcases List.mem_cons.1 h with h | h
      · exact Or.inl h
      · exact Or.inr (List.mem_cons_of_mem _ h)
    · rw [upsertA, if_neg he] at h
      rcases List.mem_cons.1 h with h | h
      · exact Or.inr (by simp [h])
      · rcases ih h with h | h
        · exact Or.inl h
        · exact Or.inr (List.mem_cons_of_mem _ h)

theorem mem_removeA {l : List (Nat × β)} {k : Nat} {e : Nat × β}
    (h : e ∈ removeA l k) : e ∈ l :=
  List.mem_of_mem_filter h

theorem length_upsertA_le (l : List (Nat × β)) (k : Nat) (v : β) :
    (upsertA l k v).length ≤ l.length + 1 := by
  induction l with
  | nil => simp [upsertA]
  | cons e rest ih =>
    by_cases h : e.1 = k
    · simp [upsertA, h]
    · simpa [upsertA, h, Nat.succ_le_succ_iff] using ih

theorem length_removeA_le (l : List (Nat × β)) (k : Nat) :
    (removeA l k).length ≤ l.length :=
  List.length_filter_le _ _

theorem lookupA_mapUpdate_self (l : List (Nat × β)) (s : Nat) (f : β → β) :
    lookupA (l.map (fun e => if e.1 = s then (e.1, f e.2) else e)) s =
      (lookupA l s).map f := by
  induction l with
  | nil => simp [lookupA]
  | cons e rest ih =>
    rcases e with ⟨a, b⟩
    by_cases has : a = s
    · subst has
      simp only [List.map_cons, if_true]
      simp [lookupA, ih]
    · simp only [List.map_cons]
      rw [if_neg (by simpa using has)]
      simp [lookupA, has, ih]

theorem lookupA_mapUpdate_ne (l : List (Nat × β)) {s k : Nat} (f : β → β)
    (h : k ≠ s) :
    lookupA (l.map (fun e => if e.1 = s then (e.1, f e.2) else e)) k =
      lookupA l k := by
  induction l with
  | nil => simp [lookupA]
  | cons e rest ih =>
    rcases e with ⟨a, b⟩
    by_cases has : a = s
    · subst has
      have hak : ¬(a = k) := fun hh => h hh.symm
      simp only [List.map_cons, if_true]
      simp [lookupA, hak, ih]
    · simp only [List.map_cons]
      rw [if_neg (by simpa using has)]
      simp [lookupA, has, ih]

theorem mem_insertId {l : List Nat} {k x : Nat} :
    x ∈ insertId l k ↔ x ∈ l ∨ x = k := by
  by_cases h : k ∈ l
  · constructor
    · intro hx
      exact Or.inl (by simpa [insertId, h] using hx)
    · intro hx
      rcases hx with hx | hx
      · simpa [insertId, h] using hx
      · subst hx
        simp only [insertId, if_pos h]
        exact h
  · simp [insertId, h]

theorem mem_removeId {l : List Nat} {k x : Nat} :
    x ∈ removeId l k ↔ x ∈ l ∧ x ≠ k := by
  simp [removeId, List.mem_filter]

theorem removeId_eq_self {l : List Nat} {k : Nat} (h : k ∉ l) :
    removeId l k = l :=
  List.filter_eq_self.2 (fun x hx => by
    simp only [decide_eq_true_eq]
    exact fun hxk => h (hxk ▸ hx))

theorem removeId_removeId (l : List Nat) (k : Nat) :
    removeId (removeId l k) k = removeId l k :=
  removeId_eq_self (fun h => ((mem_removeId.1 h).2 rfl))

end AListLemmas

section StateLemmas

/-- `updateClient` touches only the `clients` store. -/
@[simp] theorem updateClient_clientsWithoutUdp (st : ServerState) (sid : Nat)
    (f : Client → Client) :
    (st.updateClient sid f).clientsWithoutUdp = st.clientsWithoutUdp := rfl

@[simp] theorem updateClient_clientsBySocket (st : ServerState) (sid : Nat)
    (f : Client → Client) :
    (st.updateClient sid f).clientsBySocket = st.clientsBySocket := rfl

@[simp] theorem updateClient_channels (st : ServerState) (sid : Nat)
    (f : Client → Client) :
    (st.updateClient sid f).channels = st.channels := rfl

@[simp] theorem updateClient_events (st : ServerState) (sid : Nat)
    (f : Client → Client) :
    (st.updateClient sid f).events = st.events := rfl

@[simp] theorem updateClient_sessionCount (st : ServerState) (sid : Nat)
    (f : Client → Client) :
    (st.updateClient sid f).sessionCount = st.sessionCount := rfl

@[simp] theorem updateClient_channelCount (st : ServerState) (sid : Nat)
    (f : Client → Client) :
    (st.updateClient sid f).channelCount = st.channelCount := rfl

@[simp] theorem updateClient_clients_length (st : ServerState) (sid : Nat)
    (f : Client → Client) :
    (st.updateClient sid f).clients.length = st.clients.length := by
  simp [ServerState.updateClient]

theorem getClient_updateClient_self (st : ServerState) (sid : Nat)
    (f : Client → Client) :
    (st.updateClient sid f).getClient sid = (st.getClient sid).map f := by
  unfold ServerState.updateClient ServerState.getClient
  exact lookupA_mapUpdate_self _ _ _

theorem getClient_updateClient_ne (st : ServerState) {sid k : Nat}
    (f : Client → Client) (h : k ≠ sid) :
    (st.updateClient sid f).getClient k = st.getClient k := by
  unfold ServerState.updateClient ServerState.getClient
  exact lookupA_mapUpdate_ne _ _ h

/-- The `clients` store after clearing a session's UDP address. -/
theorem lookupA_map_setAddrNone (l : List (Nat × Client)) (s : Nat) :
    lookupA (l.map (fun e => if e.1 = s then (e.1, { e.2 with udpAddr := none }) else e)) s =
      (lookupA l s).map (fun c => { c with udpAddr := none }) :=
  lookupA_mapUpdate_self l s (fun c => { c with udpAddr := none })

@[simp] theorem setClientSocket_clientsWithoutUdp (st : ServerState)
    (sid : Nat) (addr : Addr) :
    (st.setClientSocket sid addr).clientsWithoutUdp = st.clientsWithoutUdp := by
  cases hg : st.getClient sid with
  | none => simp [ServerState.setClientSocket, hg]
  | some c => cases hud : c.udpAddr <;> simp [ServerState.setClientSocket, hg, hud]

@[simp] theorem setClientSocket_channels (st : ServerState)
    (sid : Nat) (addr : Addr) :
    (st.setClientSocket sid addr).channels = st.channels := by
  cases hg : st.getClient sid with
  | none => simp [ServerState.setClientSocket, hg]
  | some c => cases hud : c.udpAddr <;> simp [ServerState.setClientSocket, hg, hud]

@[simp] theorem setClientSocket_events (st : ServerState)
    (sid : Nat) (addr : Addr) :
    (st.setClientSocket sid addr).events = st.events := by
  cases hg : st.getClient sid with
  | none => simp [ServerState.setClientSocket, hg]
  | some c => cases hud : c.udpAddr <;> simp [ServerState.setClientSocket, hg, hud]

@[simp] theorem setClientSocket_clients_length (st : ServerState)
    (sid : Nat) (addr : Addr) :
    (st.setClientSocket sid addr).clients.length = st.clients.length := by
  cases hg : st.getClient sid with
  | none => simp [ServerState.setClientSocket, hg]
  | some c => cases hud : c.udpAddr <;> simp [ServerState.setClientSocket, hg, hud]

/-- After `set_client_socket`, the new address maps to the session. -/
theorem setClientSocket_lookup_self {st : ServerState} {sid : Nat} {c : Client}
    (h : st.getClient sid = some c) (addr : Addr) :
    lookupA (st.setClientSocket sid addr).clientsBySocket addr = some sid := by
  cases hud : c.udpAddr <;>
    simp [ServerState.setClientSocket, h, hud, lookupA_upsertA_self]

/-- The scan loop finds nothing when no awaiting session decrypts. -/
theorem findLoop_none (st : ServerState) (b : Buf) (addr : Addr)
    (l : List Nat)
    (h : ∀ s' ∈ l, ∀ c', st.getClient s' = some c' → c'.crypt.decrypt b = none) :
    ServerState.findLoop st b addr l = none := by
  induction l with
  | nil => rfl
  | cons a rest ih =>
    have hrest : ∀ s' ∈ rest, ∀ c', st.getClient s' = some c' →
        c'.crypt.decrypt b = none :=
      fun s' hs' c' hc' => h s' (List.mem_cons_of_mem _ hs') c' hc'
    cases hg : st.getClient a with
    | none => simp [ServerState.findLoop, hg, ih hrest]
    | some ca =>
      have hda : ca.crypt.decrypt b = none := h a (List.mem_cons_self _ _) ca hg
      simp [ServerState.findLoop, hg, hda, ih hrest]

/-- The scan loop stops at the unique decrypting session. -/
theorem findLoop_unique (st : ServerState) (b : Buf) (addr : Addr)
    (l : List Nat) (sid : Nat) (c : Client) (p : Nat)
    (hmem : sid ∈ l)
    (hc : st.getClient sid = some c)
    (hp : c.crypt.decrypt b = some p)
    (huniq : ∀ s' ∈ l, ∀ c', st.getClient s' = some c' →
      (c'.crypt.decrypt b).isSome → s' = sid) :
    ServerState.findLoop st b addr l = some ((sid, p), st.setClientSocket sid addr) := by
  induction l with
  | nil => cases hmem
  | cons a rest ih =>
    have huniqrest : ∀ s' ∈ rest, ∀ c', st.getClient s' = some c' →
        (c'.crypt.decrypt b).isSome → s' = sid :=
      fun s' hs' c' hc' hd => huniq s' (List.mem_cons_of_mem _ hs') c' hc' hd
    cases hg : st.getClient a with
    | none =>
      have hasid : a ≠ sid := by
        intro hh
        rw [hh, hc] at hg
        cases hg
      have hmemrest : sid ∈ rest := by
        rcases List.mem_cons.1 hmem with hh | hh
        · exact absurd hh.symm hasid
        · exact hh
      simp [ServerState.findLoop, hg, ih hmemrest huniqrest]
    | some ca =>
      cases hda : ca.crypt.decrypt b with
      | some q =>
        have hasid : a = sid :=
          huniq a (List.mem_cons_self _ _) ca hg (by simp [hda])
        subst hasid
        rw [hc] at hg
        rw [Option.some_inj] at hg
        subst hg
        rw [hp] at hda
        rw [Option.some_inj] at hda
        subst hda
        simp [ServerState.findLoop, hc, hp]
      | none =>
        have hasid : a ≠ sid := by
          intro hh
          subst hh
          rw [hc] at hg
          rw [Option.some_inj] at hg
          subst hg
          rw [hp] at hda
          cases hda
        have hmemrest : sid ∈ rest := by
          rcases List.mem_cons.1 hmem with hh | hh
          · exact absurd hh.symm hasid
          · exact hh
        simp [ServerState.findLoop, hg, hda, ih hmemrest huniqrest]

/-- The result component of the scan equals the specification-side scan of
the awaiting-UDP set. -/
theorem findLoop_fst (st : ServerState) (b : Buf) (addr : Addr) (l : List Nat) :
    Option.map Prod.fst (ServerState.findLoop st b addr l) =
      l.findSome? (fun sid =>
        match st.getClient sid with
        | some c => (c.crypt.decrypt b).map (fun p => (sid, p))
        | none => none) := by
  induction l with
  | nil => rfl
  | cons sid rest ih =>
    cases hg : st.getClient sid with
    | none => simp [ServerState.findLoop, hg, List.findSome?_cons, ih]
    | some c =>
      cases hd : c.crypt.decrypt b with
      | none => simp [ServerState.findLoop, hg, hd, List.findSome?_cons, ih]
      | some p => simp [ServerState.findLoop, hg, hd, List.findSome?_cons]

/-- `handle_client_left_channel` leaves the `clients` store unchanged. -/
theorem hclc_clients (st : ServerState) (sid l : Nat) :
    (st.handleClientLeftChannel sid l).2.clients = st.clients := by
  rw [ServerState.handleClientLeftChannel]
  split
  · dsimp only
    split
    · rfl
    · split <;> rfl
  · rfl

/-- `handle_client_left_channel` leaves `clients_without_udp` unchanged. -/
theorem hclc_clientsWithoutUdp (st : ServerState) (sid l : Nat) :
    (st.handleClientLeftChannel sid l).2.clientsWithoutUdp =
      st.clientsWithoutUdp := by
  rw [ServerState.handleClientLeftChannel]
  split
  · dsimp only
    split
    · rfl
    · split <;> rfl
  · rfl

/-- `handle_client_left_channel` leaves `clients_by_socket` unchanged. -/
theorem hclc_clientsBySocket (st : ServerState) (sid l : Nat) :
    (st.handleClientLeftChannel sid l).2.clientsBySocket =
      st.clientsBySocket := by
  rw [ServerState.handleClientLeftChannel]
  split
  · dsimp only
    split
    · rfl
    · split <;> rfl
  · rfl

/-- `handle_client_left_channel` leaves the id counters unchanged. -/
theorem hclc_sessionCount (st : ServerState) (sid l : Nat) :
    (st.handleClientLeftChannel sid l).2.sessionCount = st.sessionCount := by
  rw [ServerState.handleClientLeftChannel]
  split
  · dsimp only
    split
    · rfl
    · split <;> rfl
  · rfl

theorem hclc_channelCount (st : ServerState) (sid l : Nat) :
    (st.handleClientLeftChannel sid l).2.channelCount = st.channelCount := by
  rw [ServerState.handleClientLeftChannel]
  split
  · dsimp only
    split
    · rfl
    · split <;> rfl
  · rfl

/-- Every channel after `handle_client_left_channel` is either a channel of
the previous state or the left channel with the session dropped from its
membership. -/
theorem hclc_channels_shape (st : ServerState) (sid l : Nat) :
    ∀ e ∈ (st.handleClientLeftChannel sid l).2.channels,
      e ∈ st.channels ∨
      ∃ ch, lookupA st.channels l = some ch ∧
        e = (l, { ch with clients := removeId ch.clients sid }) := by
  intro e he
  rw [ServerState.handleClientLeftChannel] at he
  cases h : lookupA st.channels l with
  | some ch =>
    rw [h] at he
    dsimp only at he
    cases hp : ch.parentId with
    | none =>
      rw [hp] at he
      dsimp only at he
      rcases mem_upsertA he with he | he
      · exact Or.inr ⟨ch, rfl, by rw [hp]; exact he⟩
      · exact Or.inl he
    | some q =>
      rw [hp] at he
      dsimp only at he
      by_cases hb : (!ch.temporary || !(removeId ch.clients sid).isEmpty) = true
      · rw [if_pos hb] at he
        dsimp only at he
        rcases mem_upsertA he with he | he
        · exact Or.inr ⟨ch, rfl, by rw [hp]; exact he⟩
        · exact Or.inl he
      · rw [if_neg hb] at he
        dsimp only at he
        have he' := mem_removeA he
        rcases mem_upsertA he' with he' | he'
        · exact Or.inr ⟨ch, rfl, by rw [hp]; exact he'⟩
        · exact Or.inl he'
  | none =>
    rw [h] at he
    dsimp only at he
    exact Or.inl (mem_removeA he)

/-- The `clients` store after `disconnect` is the old store without the
session. -/
theorem disconnect_clients (st : ServerState) (sid : Nat) :
    (st.disconnect sid).clients = removeA st.clients sid := by
  cases h : st.getClient sid with
  | none => simp [ServerState.disconnect, h]
  | some c =>
    cases hud : c.udpAddr <;>
      simp [ServerState.disconnect, h, hud, hclc_clients]

/-- `clients_without_udp` after `disconnect` is the old set without the
session. -/
theorem disconnect_clientsWithoutUdp (st : ServerState) (sid : Nat) :
    (st.disconnect sid).clientsWithoutUdp = removeId st.clientsWithoutUdp sid := by
  cases h : st.getClient sid with
  | none => simp [ServerState.disconnect, h]
  | some c =>
    cases hud : c.udpAddr <;>
      simp [ServerState.disconnect, h, hud, hclc_clientsWithoutUdp]

/-- No channel keeps a listener subscription of a disconnected session. -/
theorem disconnect_listeners (st : ServerState) (sid : Nat) :
    ∀ e ∈ (st.disconnect sid).channels, sid ∉ e.2.listeners := by
  intro e he
  have hmem_map : ∀ e', e' ∈ st.channels.map
      (fun x => (x.1, { x.2 with listeners := removeId x.2.listeners sid })) →
      sid ∉ e'.2.listeners := by
    intro e' he'
    rcases List.mem_map.1 he' with ⟨x, _, rfl⟩
    intro hmem
    exact (mem_removeId.1 hmem).2 rfl
  cases h : st.getClient sid with
  | none =>
    simp only [ServerState.disconnect, h] at he
    exact hmem_map e he
  | some c =>
    cases hud : c.udpAddr with
    | none =>
      simp only [ServerState.disconnect, h, hud] at he
      rcases hclc_channels_shape _ sid c.channelId e he with he' | ⟨ch, hch, rfl⟩
      · exact hmem_map e he'
      · have := hmem_map (c.channelId, ch) (lookupA_some_mem hch)
        simpa using this
    | some a =>
      simp only [ServerState.disconnect, h, hud] at he
      rcases hclc_channels_shape _ sid c.channelId e he with he' | ⟨ch, hch, rfl⟩
      · exact hmem_map e he'
      · have := hmem_map (c.channelId, ch) (lookupA_some_mem hch)
        simpa using this

/-- One classification step, written as queue appends. -/
theorem cleanStep_eq (now : Nat) (acc : List Nat × List Nat) (e : Nat × Client) :
    ServerState.cleanStep now acc e =
      (acc.1 ++ ((if e.2.pubClosed then [e.1] else []) ++
          (if decide (30 < (now - e.2.lastPing) / 1000) then [e.1] else [])),
        acc.2 ++ (if !e.2.pubClosed && !decide (30 < (now - e.2.lastPing) / 1000) &&
            decide (8000 < now - e.2.crypt.lastGood) then [e.1] else [])) := by
  by_cases h1 : e.2.pubClosed = true <;>
    by_cases h2 : 30 < (now - e.2.lastPing) / 1000 <;>
      by_cases h3 : 8000 < now - e.2.crypt.lastGood <;>
        simp [ServerState.cleanStep, h1, h2, h3]

/-- The scan fold, characterized by the two queues. -/
theorem cleanScan_foldl (now : Nat) (l : List (Nat × Client)) (acc : List Nat × List Nat) :
    l.foldl (ServerState.cleanStep now) acc =
      (acc.1 ++ remQueue now l, acc.2 ++ rstQueue now l) := by
  induction l generalizing acc with
  | nil => simp [remQueue, rstQueue]
  | cons e rest ih =>
    rw [List.foldl_cons, ih, cleanStep_eq]
    simp [remQueue, rstQueue]

/-- `clean_run`'s scan produces exactly the two queues. -/
theorem cleanScan_eq (st : ServerState) (now : Nat) :
    st.cleanScan now = (remQueue now st.clients, rstQueue now st.clients) := by
  rw [ServerState.cleanScan, cleanScan_foldl]
  simp

theorem mem_if_singleton {p : Prop} [Decidable p] {y x : Nat} :
    (x ∈ if p then [y] else []) ↔ p ∧ x = y := by
  by_cases h : p <;> simp [h]

theorem mem_remQueue (now : Nat) (l : List (Nat × Client)) (x : Nat) :
    x ∈ remQueue now l ↔
      ∃ e ∈ l, e.1 = x ∧
        (e.2.pubClosed = true ∨ 30 < (now - e.2.lastPing) / 1000) := by
  induction l with
  | nil => simp [remQueue]
  | cons e rest ih =>
    rw [remQueue]
    simp only [List.mem_append, mem_if_singleton, ih, decide_eq_true_eq]
    constructor
    · rintro ((⟨h1, rfl⟩ | ⟨h2, rfl⟩) | ⟨e', he', rfl, hc⟩)
      · exact ⟨e, List.mem_cons_self _ _, rfl, Or.inl h1⟩
      · exact ⟨e, List.mem_cons_self _ _, rfl, Or.inr h2⟩
      · exact ⟨e', List.mem_cons_of_mem _ he', rfl, hc⟩
    · rintro ⟨e', he', rfl, hc⟩
      rcases List.mem_cons.1 he' with rfl | he'
      · rcases hc with h1 | h2
        · exact Or.inl (Or.inl ⟨h1, rfl⟩)
        · exact Or.inl (Or.inr ⟨h2, rfl⟩)
      · exact Or.inr ⟨e', he', rfl, hc⟩

theorem mem_rstQueue (now : Nat) (l : List (Nat × Client)) (x : Nat) :
    x ∈ rstQueue now l ↔
      ∃ e ∈ l, e.1 = x ∧
        (¬(e.2.pubClosed = true ∨ 30 < (now - e.2.lastPing) / 1000) ∧
          8000 < now - e.2.crypt.lastGood) := by
  induction l with
  | nil => simp [rstQueue]
  | cons e rest ih =>
    rw [rstQueue]
    simp only [List.mem_append, mem_if_singleton, ih, Bool.and_eq_true,
      Bool.not_eq_true', decide_eq_true_eq, decide_eq_false_iff_not,
      Bool.not_eq_true, not_or]
    constructor
    · rintro (⟨⟨⟨h1, h2⟩, h3⟩, rfl⟩ | ⟨e', he', rfl, hc⟩)
      · exact ⟨e, List.mem_cons_self _ _, rfl, ⟨h1, h2⟩, h3⟩
      · exact ⟨e', List.mem_cons_of_mem _ he', rfl, hc⟩
    · rintro ⟨e', he', rfl, ⟨h1, h2⟩, h3⟩
      rcases List.mem_cons.1 he' with rfl | he'
      · exact Or.inl ⟨⟨⟨h1, h2⟩, h3⟩, rfl⟩
      · exact Or.inr ⟨e', he', rfl, ⟨h1, h2⟩, h3⟩

/-- Distinct keys identify entries of an association list. -/
theorem nodup_keys_eq {β : Type} {l : List (Nat × β)}
    (h : (l.map Prod.fst).Nodup) {e e' : Nat × β}
    (he : e ∈ l) (he' : e' ∈ l) (hk : e.1 = e'.1) : e = e' := by
  induction l with
  | nil => cases he
  | cons a rest ih =>
    rw [List.map_cons, List.nodup_cons] at h
    rcases List.mem_cons.1 he with he0 | he1
    · rcases List.mem_cons.1 he' with he0' | he1'
      · rw [he0, he0']
      · subst he0
        refine absurd ?_ h.1
        rw [hk]
        exact List.mem_map_of_mem Prod.fst he1'
    · rcases List.mem_cons.1 he' with he0' | he1'
      · subst he0'
        refine absurd ?_ h.1
        rw [← hk]
        exact List.mem_map_of_mem Prod.fst he1
      · exact ih h.2 he1 he1'

/-- A successful scan leaves the state it returns in the shape produced by
`set_client_socket` on the found session. -/
theorem findLoop_state (st : ServerState) (b : Buf) (addr : Addr)
    (l : List Nat) (r : (Nat × Nat) × ServerState)
    (h : ServerState.findLoop st b addr l = some r) :
    r.2 = st.setClientSocket r.1.1 addr := by
  induction l with
  | nil => cases h
  | cons a rest ih =>
    rw [ServerState.findLoop] at h
    cases hg : st.getClient a with
    | none =>
      rw [hg] at h
      dsimp only at h
      exact ih h
    | some c =>
      rw [hg] at h
      dsimp only at h
      cases hd : c.crypt.decrypt b with
      | none =>
        rw [hd] at h
        dsimp only at h
        exact ih h
      | some p =>
        rw [hd] at h
        dsimp only at h
        rw [Option.some_inj] at h
        subst h
        rfl

theorem resetClientCrypt_clients_length (st : ServerState) (sid : Nat) :
    (st.resetClientCrypt sid).clients.length = st.clients.length := by
  cases h : st.getClient sid with
  | none => simp [ServerState.resetClientCrypt, h]
  | some c => cases hud : c.udpAddr <;> simp [ServerState.resetClientCrypt, h, hud]

theorem resetClientCrypt_channels (st : ServerState) (sid : Nat) :
    (st.resetClientCrypt sid).channels = st.channels := by
  cases h : st.getClient sid with
  | none => simp [ServerState.resetClientCrypt, h]
  | some c => cases hud : c.udpAddr <;> simp [ServerState.resetClientCrypt, h, hud]

theorem findClientWithDecrypt_clients_length (st : ServerState) (b : Buf)
    (addr : Addr) :
    (st.findClientWithDecrypt b addr).2.clients.length = st.clients.length := by
  rw [ServerState.findClientWithDecrypt]
  cases hf : ServerState.findLoop st b addr st.clientsWithoutUdp with
  | none => rfl
  | some r =>
    rcases r with ⟨⟨sid, p⟩, st'⟩
    have hst := findLoop_state st b addr _ _ hf
    dsimp only at hst
    dsimp only
    show st'.clients.length = st.clients.length
    rw [hst]
    exact setClientSocket_clients_length st sid addr

theorem findClientWithDecrypt_channels (st : ServerState) (b : Buf)
    (addr : Addr) :
    (st.findClientWithDecrypt b addr).2.channels = st.channels := by
  rw [ServerState.findClientWithDecrypt]
  cases hf : ServerState.findLoop st b addr st.clientsWithoutUdp with
  | none => rfl
  | some r =>
    rcases r with ⟨⟨sid, p⟩, st'⟩
    have hst := findLoop_state st b addr _ _ hf
    dsimp only at hst
    dsimp only
    show st'.channels = st.channels
    rw [hst]
    exact setClientSocket_channels st sid addr

theorem setClientChannel_clients_length (st : ServerState) (sid chan : Nat) :
    (st.setClientChannel sid chan).2.clients.length = st.clients.length := by
  cases h : st.getClient sid with
  | none => simp [ServerState.setClientChannel, h]
  | some c =>
    simp only [ServerState.setClientChannel, h]
    cases hl : lookupA (st.updateClient sid
        (fun cl => { cl with channelId := chan })).channels chan with
    | none =>
      dsimp only
      simp
    | some ch =>
      dsimp only
      split
      · simp
      · rw [hclc_clients]
        simp

theorem disconnect_clients_length_le (st : ServerState) (sid : Nat) :
    (st.disconnect sid).clients.length ≤ st.clients.length := by
  rw [disconnect_clients]
  exact length_removeA_le _ _

theorem cleanRun_clients_length_le (st : ServerState) (now : Nat) :
    (st.cleanRun now).clients.length ≤ st.clients.length := by
  have h1 : ∀ (l : List Nat) (s : ServerState),
      (l.foldl (fun s sid => s.resetClientCrypt sid) s).clients.length =
        s.clients.length := by
    intro l
    induction l with
    | nil => intro s; rfl
    | cons a t ih =>
      intro s
      rw [List.foldl_cons, ih, resetClientCrypt_clients_length]
  have h2 : ∀ (l : List Nat) (s : ServerState),
      (l.foldl (fun s sid => s.disconnect sid) s).clients.length ≤
        s.clients.length := by
    intro l
    induction l with
    | nil => intro s; exact Nat.le_refl _
    | cons a t ih =>
      intro s
      rw [List.foldl_cons]
      exact Nat.le_trans (ih _) (disconnect_clients_length_le s a)
  rw [ServerState.cleanRun]
  exact Nat.le_trans (h2 _ _) (Nat.le_of_eq (h1 _ _))

theorem lookupA_map_val {β : Type} (l : List (Nat × β)) (g : β → β) (k : Nat) :
    lookupA (l.map (fun e => (e.1, g e.2))) k = (lookupA l k).map g := by
  induction l with
  | nil => simp [lookupA]
  | cons e rest ih =>
    by_cases h : e.1 = k
    · simp [lookupA, h]
    · simp [lookupA, h, ih]

/-- The listener sweep of `disconnect`, as a value map. -/
theorem lookupA_map_removeListeners (l : List (Nat × Channel)) (sid k : Nat) :
    lookupA (l.map
        (fun e => (e.1, { e.2 with listeners := removeId e.2.listeners sid }))) k =
      (lookupA l k).map (fun c => { c with listeners := removeId c.listeners sid }) :=
  lookupA_map_val l (fun c => { c with listeners := removeId c.listeners sid }) k

/-- `set_client_channel` on a missing target: the error is returned and the
only state change is the already-performed `channel_id` swap. -/
theorem setClientChannel_err_shape {st : ServerState} {sid chan : Nat} {c : Client}
    (hc : st.getClient sid = some c)
    (hch : lookupA st.channels chan = none) :
    st.setClientChannel sid chan =
      (some ServerState.Err.channelDoesntExist,
        st.updateClient sid (fun cl => { cl with channelId := chan })) := by
  simp only [ServerState.setClientChannel, hc, updateClient_channels, hch]

/-- `set_client_channel` into the channel the session already occupies. -/
theorem setClientChannel_same_shape {st : ServerState} {sid chan : Nat}
    {c : Client} {ch : Channel}
    (hc : st.getClient sid = some c)
    (hch : lookupA st.channels chan = some ch)
    (heq : c.channelId = chan) :
    st.setClientChannel sid chan =
      (none,
        { st.updateClient sid (fun cl => { cl with channelId := chan }) with
          channels :=
            upsertA st.channels chan { ch with clients := insertId ch.clients sid }
          events := st.events ++ [Event.userState sid] }) := by
  simp only [ServerState.setClientChannel, hc, updateClient_channels,
    updateClient_events, hch, if_pos heq]

/-- `set_client_channel` performing a real move: swap the id, join the new
channel, broadcast the user state, then run the leave logic on the prior
channel. -/
theorem setClientChannel_move_shape {st : ServerState} {sid chan : Nat}
    {c : Client} {ch : Channel}
    (hc : st.getClient sid = some c)
    (hch : lookupA st.channels chan = some ch)
    (hne : ¬(c.channelId = chan)) :
    st.setClientChannel sid chan =
      (none,
        (ServerState.handleClientLeftChannel
          { st.updateClient sid (fun cl => { cl with channelId := chan }) with
            channels :=
              upsertA st.channels chan { ch with clients := insertId ch.clients sid }
            events := st.events ++ [Event.userState sid] }
          sid c.channelId).2) := by
  simp only [ServerState.setClientChannel, hc, updateClient_channels,
    updateClient_events, hch, if_neg hne]

theorem setClientSocket_channelCount (st : ServerState) (sid : Nat) (addr : Addr) :
    (st.setClientSocket sid addr).channelCount = st.channelCount := by
  cases hg : st.getClient sid with
  | none => simp [ServerState.setClientSocket, hg]
  | some c => cases hud : c.udpAddr <;> simp [ServerState.setClientSocket, hg, hud]

theorem findClientWithDecrypt_channelCount (st : ServerState) (b : Buf)
    (addr : Addr) :
    (st.findClientWithDecrypt b addr).2.channelCount = st.channelCount := by
  rw [ServerState.findClientWithDecrypt]
  cases hf : ServerState.findLoop st b addr st.clientsWithoutUdp with
  | none => rfl
  | some r =>
    rcases r with ⟨⟨sid, p⟩, st'⟩
    have hst := findLoop_state st b addr _ _ hf
    dsimp only at hst
    dsimp only
    show st'.channelCount = st.channelCount
    rw [hst]
    exact setClientSocket_channelCount st sid addr

theorem resetClientCrypt_channelCount (st : ServerState) (sid : Nat) :
    (st.resetClientCrypt sid).channelCount = st.channelCount := by
  cases h : st.getClient sid with
  | none => simp [ServerState.resetClientCrypt, h]
  | some c => cases hud : c.udpAddr <;> simp [ServerState.resetClientCrypt, h, hud]

theorem setClientChannel_channelCount (st : ServerState) (sid chan : Nat) :
    (st.setClientChannel sid chan).2.channelCount = st.channelCount := by
  cases h : st.getClient sid with
  | none => simp [ServerState.setClientChannel, h]
  | some c =>
    simp only [ServerState.setClientChannel, h]
    cases hl : lookupA (st.updateClient sid
        (fun cl => { cl with channelId := chan })).channels chan with
    | none =>
      dsimp only
      simp
    | some ch =>
      dsimp only
      split
      · simp
      · rw [hclc_channelCount]
        simp

theorem disconnect_channelCount (st : ServerState) (sid : Nat) :
    (st.disconnect sid).channelCount = st.channelCount := by
  cases h : st.getClient sid with
  | none => simp [ServerState.disconnect, h]
  | some c =>
    cases hud : c.udpAddr <;>
      simp [ServerState.disconnect, h, hud, hclc_channelCount]

theorem cleanRun_channelCount (st : ServerState) (now : Nat) :
    (st.cleanRun now).channelCount = st.channelCount := by
  have h1 : ∀ (l : List Nat) (s : ServerState),
      (l.foldl (fun s sid => s.resetClientCrypt sid) s).channelCount =
        s.channelCount := by
    intro l
    induction l with
    | nil => intro s; rfl
    | cons a t ih =>
      intro s
      rw [List.foldl_cons, ih, resetClientCrypt_channelCount]
  have h2 : ∀ (l : List Nat) (s : ServerState),
      (l.foldl (fun s sid => s.disconnect sid) s).channelCount =
        s.channelCount := by
    intro l
    induction l with
    | nil => intro s; rfl
    | cons a t ih =>
      intro s
      rw [List.foldl_cons, ih, disconnect_channelCount]
  rw [ServerState.cleanRun]
  rw [h2, h1]

/-- Transport `chanInv` along equal channel data. -/
theorem chanInv_of_eq {s t : ServerState} (h : chanInv s)
    (hch : t.channels = s.channels) (hcnt : t.channelCount = s.channelCount) :
    chanInv t := by
  obtain ⟨h1, ⟨ch0, h0, h0t⟩, hpar⟩ := h
  refine ⟨by rw [hcnt]; exact h1, ⟨ch0, by rw [hch]; exact h0, h0t⟩, ?_⟩
  intro e he
  rw [hch] at he
  exact hpar e he

/-- Replacing an existing channel by a version with the same temporariness
and parent preserves the Root and parent properties. -/
theorem chanProps_upsert (channels : List (Nat × Channel)) (chan : Nat)
    (ch ch' : Channel)
    (hch : lookupA channels chan = some ch)
    (htemp : ch'.temporary = ch.temporary) (hparid : ch'.parentId = ch.parentId)
    (hroot : ∃ ch0, lookupA channels 0 = some ch0 ∧ ch0.temporary = false)
    (hpar : ∀ e ∈ channels, e.2.parentId.isSome = true) :
    (∃ ch0, lookupA (upsertA channels chan ch') 0 = some ch0 ∧
      ch0.temporary = false) ∧
    (∀ e ∈ upsertA channels chan ch', e.2.parentId.isSome = true) := by
  obtain ⟨ch0, h0, h0t⟩ := hroot
  constructor
  · by_cases h0c : chan = 0
    · subst h0c
      rw [hch] at h0
      rw [Option.some_inj] at h0
      refine ⟨ch', lookupA_upsertA_self _ _ _, ?_⟩
      rw [htemp, h0, h0t]
    · refine ⟨ch0, ?_, h0t⟩
      rw [lookupA_upsertA_ne _ _ (fun hh => h0c hh.symm)]
      exact h0
  · intro e he
    rcases mem_upsertA he with he | he
    · rw [he]
      show ch'.parentId.isSome = true
      rw [hparid]
      exact hpar (chan, ch) (lookupA_some_mem hch)
    · exact hpar e he

/-- `handle_client_left_channel` preserves the Root invariant. -/
theorem hclc_chanInv (st : ServerState) (sid l : Nat) (h : chanInv st) :
    chanInv (st.handleClientLeftChannel sid l).2 := by
  obtain ⟨hcnt, ⟨ch0, h0, h0t⟩, hpar⟩ := h
  rw [ServerState.handleClientLeftChannel]
  cases hl : lookupA st.channels l with
  | none =>
    dsimp only
    have hlne : (0 : Nat) ≠ l := by
      rintro rfl
      rw [hl] at h0
      cases h0
    refine ⟨hcnt, ⟨ch0, ?_, h0t⟩, ?_⟩
    · rw [lookupA_removeA_ne _ hlne]
      exact h0
    · intro e he
      exact hpar e (mem_removeA he)
  | some ch =>
    dsimp only
    have hps := chanProps_upsert st.channels l ch
      { ch with clients := removeId ch.clients sid } hl rfl rfl
      ⟨ch0, h0, h0t⟩ hpar
    cases hp : ch.parentId with
    | none =>
      have := hpar (l, ch) (lookupA_some_mem hl)
      rw [hp] at this
      cases this
    | some q =>
      dsimp only
      by_cases hb : (!ch.temporary || !(removeId ch.clients sid).isEmpty) = true
      · rw [if_pos hb]
        dsimp only
        rw [← hp]
        exact ⟨hcnt, hps.1, hps.2⟩
      · rw [if_neg hb]
        dsimp only
        rw [← hp]
        have htemp : ch.temporary = true := by
          cases htc : ch.temporary with
          | false => exact absurd (by simp [htc]) hb
          | true => rfl
        have hlne : (0 : Nat) ≠ l := by
          rintro rfl
          rw [hl] at h0
          rw [Option.some_inj] at h0
          rw [← h0, htemp] at h0t
          cases h0t
        obtain ⟨ch0', h0', h0t'⟩ := hps.1
        refine ⟨hcnt, ⟨ch0', ?_, h0t'⟩, ?_⟩
        · rw [lookupA_removeA_ne _ hlne]
          exact h0'
        · intro e he
          exact hps.2 e (mem_removeA he)

theorem addChannel_chanInv (st : ServerState) (parent : Nat)
    (name desc : String) (temp : Bool) (h : chanInv st) :
    chanInv (st.addChannel parent name desc temp).2 := by
  obtain ⟨hcnt, ⟨ch0, h0, h0t⟩, hpar⟩ := h
  have hne : (0 : Nat) ≠ st.channelCount := by omega
  refine ⟨?_, ⟨ch0, ?_, h0t⟩, ?_⟩
  · show 1 ≤ st.channelCount + 1
    omega
  · show lookupA (upsertA st.channels st.channelCount _) 0 = some ch0
    rw [lookupA_upsertA_ne _ _ hne]
    exact h0
  · intro e he
    rcases mem_upsertA he with he | he
    · rw [he]
      rfl
    · exact hpar e he

theorem setClientChannel_chanInv (st : ServerState) (sid chan : Nat)
    (h : chanInv st) : chanInv (st.setClientChannel sid chan).2 := by
  cases hc : st.getClient sid with
  | none =>
    simp only [ServerState.setClientChannel, hc]
    exact h
  | some c =>
    cases hch : lookupA st.channels chan with
    | none =>
      rw [setClientChannel_err_shape hc hch]
      exact chanInv_of_eq h rfl rfl
    | some ch =>
      have hps := chanProps_upsert st.channels chan ch
        { ch with clients := insertId ch.clients sid } hch rfl rfl
        h.2.1 h.2.2
      by_cases heq : c.channelId = chan
      · rw [setClientChannel_same_shape hc hch heq]
        exact ⟨h.1, hps.1, hps.2⟩
      · rw [setClientChannel_move_shape hc hch heq]
        exact hclc_chanInv _ sid c.channelId ⟨h.1, hps.1, hps.2⟩

theorem disconnect_chanInv (st : ServerState) (sid : Nat) (h : chanInv st) :
    chanInv (st.disconnect sid) := by
  have hmapInv : chanInv
      { st with
        channels :=
          st.channels.map
            (fun e => (e.1, { e.2 with listeners := removeId e.2.listeners sid })) } := by
    obtain ⟨hcnt, ⟨ch0, h0, h0t⟩, hpar⟩ := h
    refine ⟨hcnt, ⟨{ ch0 with listeners := removeId ch0.listeners sid }, ?_, h0t⟩, ?_⟩
    · show lookupA (st.channels.map
        (fun e => (e.1, { e.2 with listeners := removeId e.2.listeners sid }))) 0 = _
      rw [lookupA_map_removeListeners, h0]
      rfl
    · intro e he
      rcases List.mem_map.1 he with ⟨x, hx, rfl⟩
      exact hpar x hx
  cases hc : st.getClient sid with
  | none =>
    simp only [ServerState.disconnect, hc]
    exact hmapInv
  | some c =>
    cases hud : c.udpAddr with
    | none =>
      simp only [ServerState.disconnect, hc, hud]
      exact hclc_chanInv _ sid c.channelId hmapInv
    | some a =>
      simp only [ServerState.disconnect, hc, hud]
      exact hclc_chanInv _ sid c.channelId hmapInv

theorem resetClientCrypt_chanInv (st : ServerState) (sid : Nat) (h : chanInv st) :
    chanInv (st.resetClientCrypt sid) :=
  chanInv_of_eq h (resetClientCrypt_channels st sid)
    (resetClientCrypt_channelCount st sid)

theorem cleanRun_chanInv (st : ServerState) (now : Nat) (h : chanInv st) :
    chanInv (st.cleanRun now) := by
  have h1 : ∀ (l : List Nat) (s : ServerState), chanInv s →
      chanInv (l.foldl (fun s sid => s.resetClientCrypt sid) s) := by
    intro l
    induction l with
    | nil => intro s hs; exact hs
    | cons a t ih =>
      intro s hs
      rw [List.foldl_cons]
      exact ih _ (resetClientCrypt_chanInv s a hs)
  have h2 : ∀ (l : List Nat) (s : ServerState), chanInv s →
      chanInv (l.foldl (fun s sid => s.disconnect sid) s) := by
    intro l
    induction l with
    | nil => intro s hs; exact hs
    | cons a t ih =>
      intro s hs
      rw [List.foldl_cons]
      exact ih _ (disconnect_chanInv s a hs)
  rw [ServerState.cleanRun]
  exact h2 _ _ (h1 _ _ h)

/-- Every reachable state satisfies the Root invariant: in particular the
Root channel is present (it is never removed) and non-temporary. -/
theorem reachable_chanInv (cap : Nat) (st : ServerState)
    (h : Reachable cap st) : chanInv st := by
  induction h with
  | init =>
    refine ⟨Nat.le_refl 1, ⟨Channel.new 0 (some 0) "Root" "Root channel" false, rfl, rfl⟩, ?_⟩
    intro e he
    rcases List.mem_singleton.1 he with rfl
    rfl
  | step h1 h2 ih =>
    rename_i s t
    cases h2 with
    | authenticate crypt lastPing hlt => exact ih
    | addChannel parent name desc temp => exact addChannel_chanInv s parent name desc temp ih
    | setSocket sid addr =>
      exact chanInv_of_eq ih (setClientSocket_channels s sid addr)
        (setClientSocket_channelCount s sid addr)
    | findDecrypt b addr =>
      exact chanInv_of_eq ih (findClientWithDecrypt_channels s b addr)
        (findClientWithDecrypt_channelCount s b addr)
    | resetCrypt sid => exact resetClientCrypt_chanInv s sid ih
    | setChannel sid chan => exact setClientChannel_chanInv s sid chan ih
    | disconnect sid => exact disconnect_chanInv s sid ih
    | clean now => exact cleanRun_chanInv s now ih
    | ping sid now => exact chanInv_of_eq ih rfl rfl
    | closeMailbox sid => exact chanInv_of_eq ih rfl rfl

/-- The leave logic does not disturb channels other than the one left. -/
theorem hclc_channels_lookup_other (st : ServerState) (sid l k : Nat)
    (hk : k ≠ l) :
    lookupA (st.handleClientLeftChannel sid l).2.channels k =
      lookupA st.channels k := by
  rw [ServerState.handleClientLeftChannel]
  cases hl : lookupA st.channels l with
  | none =>
    dsimp only
    exact lookupA_removeA_ne _ hk
  | some ch =>
    dsimp only
    cases hp : ch.parentId with
    | none =>
      dsimp only
      exact lookupA_upsertA_ne _ _ hk
    | some q =>
      dsimp only
      by_cases hb : (!ch.temporary || !(removeId ch.clients sid).isEmpty) = true
      · rw [if_pos hb]
        dsimp only
        exact lookupA_upsertA_ne _ _ hk
      · rw [if_neg hb]
        dsimp only
        rw [lookupA_removeA_ne _ hk]
        exact lookupA_upsertA_ne _ _ hk

/-- If the left channel is absent it stays absent. -/
theorem hclc_channels_lookup_gone (st : ServerState) (sid l : Nat)
    (hl : lookupA st.channels l = none) :
    lookupA (st.handleClientLeftChannel sid l).2.channels l = none := by
  rw [ServerState.handleClientLeftChannel, hl]
  dsimp only
  exact lookupA_removeA_self _ _

/-- The left channel after the leave logic: either it survives with the
session dropped from its membership, or it was removed — and removal only
happens to a temporary channel whose membership became empty. -/
theorem hclc_channels_lookup_self (st : ServerState) (sid l : Nat)
    (ch : Channel) (hl : lookupA st.channels l = some ch) :
    lookupA (st.handleClientLeftChannel sid l).2.channels l =
      some { ch with clients := removeId ch.clients sid } ∨
    (lookupA (st.handleClientLeftChannel sid l).2.channels l = none ∧
      removeId ch.clients sid = [] ∧ ch.temporary = true) := by
  rw [ServerState.handleClientLeftChannel, hl]
  dsimp only
  cases hp : ch.parentId with
  | none =>
    dsimp only
    left
    rw [← hp]
    exact lookupA_upsertA_self _ _ _
  | some q =>
    dsimp only
    by_cases hb : (!ch.temporary || !(removeId ch.clients sid).isEmpty) = true
    · rw [if_pos hb]
      dsimp only
      left
      rw [← hp]
      exact lookupA_upsertA_self _ _ _
    · rw [if_neg hb]
      dsimp only
      right
      have htemp : ch.temporary = true := by
        cases htc : ch.temporary with
        | false => exact absurd (by simp [htc]) hb
        | true => rfl
      have hempty : removeId ch.clients sid = [] := by
        cases hce : removeId ch.clients sid with
        | nil => rfl
        | cons a t => exact absurd (by simp [hce]) hb
      exact ⟨lookupA_removeA_self _ _, hempty, htemp⟩

/-- When the left channel is temporary with a parent and its membership
empties, the leave logic removes it and broadcasts `ChannelRemove`. -/
theorem hclc_removes (st : ServerState) (sid l : Nat) (ch : Channel) (q : Nat)
    (hl : lookupA st.channels l = some ch) (hq : ch.parentId = some q)
    (htemp : ch.temporary = true) (hempty : removeId ch.clients sid = []) :
    lookupA (st.handleClientLeftChannel sid l).2.channels l = none ∧
    (st.handleClientLeftChannel sid l).2.events =
      st.events ++ [Event.channelRemove l] := by
  rw [ServerState.handleClientLeftChannel, hl]
  dsimp only
  rw [hq]
  dsimp only
  rw [if_neg (by simp [htemp, hempty])]
  dsimp only
  exact ⟨lookupA_removeA_self _ _, rfl⟩

/-- The leave logic preserves the channel-link invariant provided every
entry of the leaving session no longer references the left channel. -/
theorem hclc_channelLink (st : ServerState) (sid leaveId : Nat)
    (hlink : channelLink st)
    (hsid : ∀ e ∈ st.clients, e.1 = sid → e.2.channelId ≠ leaveId) :
    channelLink (st.handleClientLeftChannel sid leaveId).2 := by
  intro e he
  rw [hclc_clients] at he
  obtain ⟨chE, hlE, hmE⟩ := hlink e he
  by_cases hec : e.2.channelId = leaveId
  · rw [hec] at hlE
    rcases hclc_channels_lookup_self st sid leaveId chE hlE with hres | ⟨hres, hem, _⟩
    · refine ⟨{ chE with clients := removeId chE.clients sid }, ?_, ?_⟩
      · rw [hec]
        exact hres
      · show e.1 ∈ removeId chE.clients sid
        refine mem_removeId.2 ⟨hmE, ?_⟩
        intro hh
        exact (hsid e he hh) hec
    · exfalso
      have hne : e.1 ≠ sid := fun hh => (hsid e he hh) hec
      have : e.1 ∈ removeId chE.clients sid := mem_removeId.2 ⟨hmE, hne⟩
      rw [hem] at this
      cases this
  · refine ⟨chE, ?_, hmE⟩
    rw [hclc_channels_lookup_other st sid leaveId _ hec]
    exact hlE

/-- `disconnect` on a session absent from every index is the identity. -/
theorem disconnect_of_absent (t : ServerState) (sid : Nat)
    (h1 : t.getClient sid = none)
    (h2 : sid ∉ t.clientsWithoutUdp)
    (h3 : ∀ e ∈ t.channels, sid ∉ e.2.listeners) :
    t.disconnect sid = t := by
  have hc : removeA t.clients sid = t.clients := removeA_eq_self h1
  have hw : removeId t.clientsWithoutUdp sid = t.clientsWithoutUdp :=
    removeId_eq_self h2
  have hch : t.channels.map
      (fun e => (e.1, { e.2 with listeners := removeId e.2.listeners sid })) =
      t.channels := by
    have hfun : ∀ e ∈ t.channels,
        (fun e => (e.1, { e.2 with listeners := removeId e.2.listeners sid })) e =
          id e := by
      intro e he
      have hid : removeId e.2.listeners sid = e.2.listeners :=
        removeId_eq_self (h3 e he)
      simp [hid]
    have := List.map_congr_left hfun
    simpa using this
  simp only [ServerState.disconnect, h1]
  rw [hc, hw, hch]

end StateLemmas

/-- Claim C10: when the leave-channel id is absent from the channel map,
`handle_client_left_channel` does not silently no-op: it still broadcasts a
`ChannelRemove` carrying that id (one broadcast event reaching every
connected session) and attempts the removal of the id from the channel map
(a no-op, since the id is absent), returning the id. -/
theorem claim10_missing_channel_still_broadcasts (st : ServerState)
    (sid leaveId : Nat) (h : lookupA st.channels leaveId = none) :
    st.handleClientLeftChannel sid leaveId =
      (some leaveId,
        { st with
          channels := removeA st.channels leaveId
          events := st.events ++ [Event.channelRemove leaveId] }) ∧
    removeA st.channels leaveId = st.channels := by
  constructor
  · simp [ServerState.handleClientLeftChannel, h]
  · exact removeA_eq_self h

/-- Witness for C10 at the fresh state and the absent channel id 42. -/
theorem claim10_witness :
    lookupA initState.channels 42 = none ∧
    (initState.handleClientLeftChannel 1 42 =
      (some 42,
        { initState with
          channels := removeA initState.channels 42
          events := initState.events ++ [Event.channelRemove 42] }) ∧
      removeA initState.channels 42 = initState.channels) :=
  ⟨by decide, claim10_missing_channel_still_broadcasts initState 1 42 (by decide)⟩

/-- Claim C5 is false on the code: the control frame with kind value 100
names no `MessageKind`, so `MessageHandler::handle` propagates the
conversion error raised by the `?` on `MessageKind::try_from` instead of
logging the frame and returning success. -/
theorem claim5_counterexample :
    MessageKind.tryFromU16 100 = none ∧
    messageHandlerHandle innerOk 100 =
      Except.error (HandleError.unknownKind 100) :=
  ⟨rfl, rfl⟩

/-- Claim C5 (amended): a frame whose kind converts to a `MessageKind`
without a dispatch arm (ChannelRemove, UserRemove, CodecVersion) is logged
and ignored with success, whatever the supported handlers do; a kind value
that is not a valid `MessageKind` fails the conversion, and that error is
propagated out of `MessageHandler::handle`. -/
theorem claim5_amended
    (inner : MessageKind → Except HandleError HandleOutcome) (k : Nat) :
    (∀ mk, MessageKind.tryFromU16 k = some mk →
      (mk = MessageKind.channelRemove ∨ mk = MessageKind.userRemove ∨
        mk = MessageKind.codecVersion) →
      messageHandlerHandle inner k = Except.ok (HandleOutcome.ignored mk)) ∧
    (MessageKind.tryFromU16 k = none →
      messageHandlerHandle inner k = Except.error (HandleError.unknownKind k)) := by
  constructor
  · rintro mk hmk (rfl | rfl | rfl) <;> simp [messageHandlerHandle, hmk]
  · intro h
    simp [messageHandlerHandle, h]

/-- Witness for the amended C5 at kind 7 (ChannelRemove). -/
theorem claim5_witness :
    messageHandlerHandle innerOk 7 =
      Except.ok (HandleOutcome.ignored MessageKind.channelRemove) :=
  (claim5_amended innerOk 7).1 MessageKind.channelRemove (by decide) (Or.inl rfl)

/-- Claim C7: after `reset_client_crypt` on a live session, the session is
present in `clients_without_udp`, its bound UDP address is cleared, the
`clients_by_socket` entry at its old address (when one existed) is removed
— the indexing state `add_client` establishes before any binding — and a
CryptSetup has been sent to the session. -/
theorem claim7_reset_client_crypt (st : ServerState) (sid : Nat) (c : Client)
    (h : st.getClient sid = some c) :
    sid ∈ (st.resetClientCrypt sid).clientsWithoutUdp ∧
    (∃ c', (st.resetClientCrypt sid).getClient sid = some c' ∧
      c'.udpAddr = none) ∧
    (∀ a, c.udpAddr = some a →
      lookupA (st.resetClientCrypt sid).clientsBySocket a = none) ∧
    (st.resetClientCrypt sid).events = st.events ++ [Event.cryptSetup sid] := by
  have hcl : (st.resetClientCrypt sid).clients =
      st.clients.map (fun e => if e.1 = sid then (e.1, { e.2 with udpAddr := none }) else e) := by
    cases hud : c.udpAddr <;>
      simp [ServerState.resetClientCrypt, h, hud, ServerState.updateClient]
  refine ⟨?_, ⟨{ c with udpAddr := none }, ?_, rfl⟩, ?_, ?_⟩
  · cases hud : c.udpAddr <;>
      simp [ServerState.resetClientCrypt, h, hud, mem_insertId]
  · show lookupA (st.resetClientCrypt sid).clients sid = _
    rw [hcl, lookupA_map_setAddrNone]
    rw [ServerState.getClient] at h
    rw [h]
    rfl
  · intro a ha
    show lookupA (st.resetClientCrypt sid).clientsBySocket a = none
    have hbs : (st.resetClientCrypt sid).clientsBySocket =
        removeA st.clientsBySocket a := by
      simp [ServerState.resetClientCrypt, h, ha]
    rw [hbs]
    exact lookupA_removeA_self _ _
  · cases hud : c.udpAddr <;>
      simp [ServerState.resetClientCrypt, h, hud]

/-- Claim C8: `disconnect` is idempotent — a second `disconnect` of the
same session id leaves the registry (clients, awaiting-UDP set, by-socket
index, channels with their membership and listener sets) exactly as the
first call left it, and the second call emits no additional broadcast (the
event log is unchanged). -/
theorem claim8_disconnect_idempotent (st : ServerState) (sid : Nat) :
    (st.disconnect sid).disconnect sid = st.disconnect sid ∧
    ((st.disconnect sid).disconnect sid).events = (st.disconnect sid).events := by
  have h1 : (st.disconnect sid).getClient sid = none := by
    show lookupA (st.disconnect sid).clients sid = none
    rw [disconnect_clients]
    exact lookupA_removeA_self _ _
  have h2 : sid ∉ (st.disconnect sid).clientsWithoutUdp := by
    rw [disconnect_clientsWithoutUdp]
    intro hmem
    exact (mem_removeId.1 hmem).2 rfl
  have heq :=
    disconnect_of_absent (st.disconnect sid) sid h1 h2 (disconnect_listeners st sid)
  exact ⟨heq, by rw [heq]⟩

/-- Claim C3: in every reachable server state the number of live sessions
(entries of the clients map) is at most the client cap: admission (the
authenticate step, modelled from the spec's hard client cap) refuses a new
session at the cap, so `add_client` is only invoked below it and the map
never exceeds the cap. -/
theorem claim3_max_clients (cap : Nat) (st : ServerState)
    (h : Reachable cap st) : st.clients.length ≤ cap := by
  induction h with
  | init => simp [initState]
  | step h1 h2 ih =>
    rename_i s t
    cases h2 with
    | authenticate crypt lastPing hlt =>
      have hb : ((s.addClient crypt lastPing).2).clients.length ≤
          s.clients.length + 1 := by
        show (upsertA s.clients s.sessionCount _).length ≤ s.clients.length + 1
        exact length_upsertA_le _ _ _
      exact Nat.le_trans hb hlt
    | addChannel parent name desc temp => exact ih
    | setSocket sid addr =>
      rw [setClientSocket_clients_length]
      exact ih
    | findDecrypt b addr =>
      rw [findClientWithDecrypt_clients_length]
      exact ih
    | resetCrypt sid =>
      rw [resetClientCrypt_clients_length]
      exact ih
    | setChannel sid chan =>
      rw [setClientChannel_clients_length]
      exact ih
    | disconnect sid =>
      exact Nat.le_trans (disconnect_clients_length_le s sid) ih
    | clean now =>
      exact Nat.le_trans (cleanRun_clients_length_le s now) ih
    | ping sid now =>
      rw [updateClient_clients_length]
      exact ih
    | closeMailbox sid =>
      rw [updateClient_clients_length]
      exact ih

/-- Witness for C3: two authentications under cap 2 stay at the cap. -/
theorem claim3_witness : claim2state.clients.length ≤ 2 :=
  claim3_max_clients 2 claim2state
    (Reachable.step
      (Reachable.step Reachable.init
        (Step.authenticate initState ⟨10, 0⟩ 0 (by decide)))
      (Step.authenticate (initState.addClient ⟨10, 0⟩ 0).2 ⟨20, 0⟩ 0 (by decide)))

/-- Claim C4 is false on the code: from the fresh state, authenticating a
session, joining Root, then requesting a move to the nonexistent channel 5
yields a reachable state in which the session's `channel_id` names a
channel that is not in the channel map — `set_client_channel` swaps the
`channel_id` before it validates the target's existence. -/
theorem claim4_counterexample :
    Reachable 16 claim4state ∧ ¬ channelLink claim4state :=
  ⟨Reachable.step
      (Reachable.step
        (Reachable.step Reachable.init
          (Step.authenticate initState ⟨0, 0⟩ 0 (by decide)))
        (Step.setChannel (initState.addClient ⟨0, 0⟩ 0).2 1 0))
      (Step.setChannel claim4base 1 5),
    by decide⟩

/-- Claim C4 (amended): the channel-link invariant is preserved by every
`set_client_channel` call that returns Ok; a call that returns
`ChannelDoesntExist` leaves the session's `channel_id` pointing at the
nonexistent target channel, breaking the invariant for that session. -/
theorem claim4_amended (st : ServerState) (sid chan : Nat) :
    ((st.setClientChannel sid chan).1 = none → channelLink st →
      channelLink (st.setClientChannel sid chan).2) ∧
    (∀ c, st.getClient sid = some c →
      (st.setClientChannel sid chan).1 = some ServerState.Err.channelDoesntExist →
      ∃ c', (st.setClientChannel sid chan).2.getClient sid = some c' ∧
        c'.channelId = chan ∧
        lookupA (st.setClientChannel sid chan).2.channels chan = none) := by
  constructor
  · intro hok hlink
    cases hc : st.getClient sid with
    | none =>
      simp only [ServerState.setClientChannel, hc]
      exact hlink
    | some c =>
      cases hch : lookupA st.channels chan with
      | none =>
        rw [setClientChannel_err_shape hc hch] at hok
        cases hok
      | some ch =>
        have hlink3 : channelLink
            { st.updateClient sid (fun cl => { cl with channelId := chan }) with
              channels :=
                upsertA st.channels chan { ch with clients := insertId ch.clients sid }
              events := st.events ++ [Event.userState sid] } := by
          intro e he
          have he' : e ∈ st.clients.map
              (fun x => if x.1 = sid then
                (x.1, { x.2 with channelId := chan }) else x) := he
          rcases List.mem_map.1 he' with ⟨x, hx, hxe⟩
          by_cases hxs : x.1 = sid
          · rw [if_pos hxs] at hxe
            subst hxe
            refine ⟨{ ch with clients := insertId ch.clients sid }, ?_, ?_⟩
            · show lookupA (upsertA st.channels chan _) chan = _
              exact lookupA_upsertA_self _ _ _
            · show x.1 ∈ insertId ch.clients sid
              rw [hxs]
              exact mem_insertId.2 (Or.inr rfl)
          · rw [if_neg hxs] at hxe
            subst hxe
            obtain ⟨chX, hlX, hmX⟩ := hlink x hx
            by_cases hxc : x.2.channelId = chan
            · rw [hxc, hch] at hlX
              rw [Option.some_inj] at hlX
              refine ⟨{ ch with clients := insertId ch.clients sid }, ?_, ?_⟩
              · show lookupA (upsertA st.channels chan _) x.2.channelId = _
                rw [hxc]
                exact lookupA_upsertA_self _ _ _
              · show x.1 ∈ insertId ch.clients sid
                refine mem_insertId.2 (Or.inl ?_)
                rw [← hlX] at hmX
                exact hmX
            · refine ⟨chX, ?_, hmX⟩
              show lookupA (upsertA st.channels chan _) x.2.channelId = _
              rw [lookupA_upsertA_ne _ _ hxc]
              exact hlX
        by_cases heq : c.channelId = chan
        · rw [setClientChannel_same_shape hc hch heq]
          exact hlink3
        · rw [setClientChannel_move_shape hc hch heq]
          apply hclc_channelLink _ sid c.channelId hlink3
          intro e he hes
          have he' : e ∈ st.clients.map
              (fun x => if x.1 = sid then
                (x.1, { x.2 with channelId := chan }) else x) := he
          rcases List.mem_map.1 he' with ⟨x, hx, hxe⟩
          by_cases hxs : x.1 = sid
          · rw [if_pos hxs] at hxe
            subst hxe
            show chan ≠ c.channelId
            intro hh
            exact heq hh.symm
          · rw [if_neg hxs] at hxe
            subst hxe
            exact absurd hes hxs
  · intro c hc herr
    cases hch : lookupA st.channels chan with
    | some ch =>
      exfalso
      by_cases heq : c.channelId = chan
      · rw [setClientChannel_same_shape hc hch heq] at herr
        cases herr
      · rw [setClientChannel_move_shape hc hch heq] at herr
        cases herr
    | none =>
      rw [setClientChannel_err_shape hc hch]
      refine ⟨{ c with channelId := chan }, ?_, rfl, ?_⟩
      · show (st.updateClient sid _).getClient sid = _
        rw [getClient_updateClient_self, hc]
        rfl
      · show lookupA (st.updateClient sid _).channels chan = none
        rw [updateClient_channels]
        exact hch

/-- Witness for the amended C4: an Ok move preserves the invariant on
`claim4okstate`; the failed move of `claim4base` to channel 5 leaves the
session's `channel_id` at the absent channel 5. -/
theorem claim4_witness :
    channelLink (claim4okstate.setClientChannel 1 1).2 ∧
    (∃ c', (claim4base.setClientChannel 1 5).2.getClient 1 = some c' ∧
      c'.channelId = 5 ∧
      lookupA (claim4base.setClientChannel 1 5).2.channels 5 = none) :=
  ⟨(claim4_amended claim4okstate 1 1).1 (by decide) (by decide),
    (claim4_amended claim4base 1 5).2 ⟨1, 0, none, ⟨0, 0⟩, false, 0⟩
      (by decide) (by decide)⟩

/-- Claim C9: a channel move in a reachable state removes the session from
its prior channel's membership and inserts it into the new channel's
membership; if the prior channel is temporary, its membership is now
empty, and it is not Root, the prior channel is removed and a
`ChannelRemove` is broadcast; and channel 0 (Root) is present — never
removed — in every reachable state. -/
theorem claim9_channel_move (cap : Nat) (st : ServerState)
    (hr : Reachable cap st) (sid chan : Nat) (c : Client) (ch : Channel)
    (hc : st.getClient sid = some c)
    (hch : lookupA st.channels chan = some ch)
    (hne : c.channelId ≠ chan) :
    (st.setClientChannel sid chan).1 = none ∧
    (∀ chL', lookupA (st.setClientChannel sid chan).2.channels c.channelId =
        some chL' → sid ∉ chL'.clients) ∧
    (∃ ch', lookupA (st.setClientChannel sid chan).2.channels chan = some ch' ∧
      sid ∈ ch'.clients) ∧
    (∀ chL, lookupA st.channels c.channelId = some chL → chL.temporary = true →
      removeId chL.clients sid = [] → c.channelId ≠ 0 →
      lookupA (st.setClientChannel sid chan).2.channels c.channelId = none ∧
      Event.channelRemove c.channelId ∈ (st.setClientChannel sid chan).2.events) ∧
    (∀ cap2 st2, Reachable cap2 st2 →
      ∃ chR, lookupA st2.channels 0 = some chR ∧ chR.temporary = false) := by
  have hmove := setClientChannel_move_shape hc hch hne
  set T : ServerState :=
    { st.updateClient sid (fun cl => { cl with channelId := chan }) with
      channels :=
        upsertA st.channels chan { ch with clients := insertId ch.clients sid }
      events := st.events ++ [Event.userState sid] } with hT
  have hTchan : lookupA T.channels chan =
      some { ch with clients := insertId ch.clients sid } := by
    show lookupA (upsertA st.channels chan _) chan = _
    exact lookupA_upsertA_self _ _ _
  have hTleave : lookupA T.channels c.channelId =
      lookupA st.channels c.channelId := by
    show lookupA (upsertA st.channels chan _) c.channelId = _
    exact lookupA_upsertA_ne _ _ hne
  refine ⟨?_, ?_, ?_, ?_, ?_⟩
  · rw [hmove]
  · intro chL' hl'
    rw [hmove] at hl'
    cases hstl : lookupA st.channels c.channelId with
    | none =>
      rw [hclc_channels_lookup_gone T sid c.channelId
        (by rw [hTleave]; exact hstl)] at hl'
      cases hl'
    | some chL =>
      rcases hclc_channels_lookup_self T sid c.channelId chL
          (by rw [hTleave]; exact hstl) with hres | ⟨hres, _, _⟩
      · rw [hres] at hl'
        rw [Option.some_inj] at hl'
        subst hl'
        intro hmem
        exact (mem_removeId.1 hmem).2 rfl
      · rw [hres] at hl'
        cases hl'
  · rw [hmove]
    refine ⟨{ ch with clients := insertId ch.clients sid }, ?_, ?_⟩
    · rw [hclc_channels_lookup_other T sid c.channelId chan
        (fun hh => hne hh.symm)]
      exact hTchan
    · exact mem_insertId.2 (Or.inr rfl)
  · intro chL hchL htemp hempty h0
    have hinv := reachable_chanInv cap st hr
    have hqs : chL.parentId.isSome = true :=
      hinv.2.2 (c.channelId, chL) (lookupA_some_mem hchL)
    rcases Option.isSome_iff_exists.1 hqs with ⟨q, hq⟩
    have hrem := hclc_removes T sid c.channelId chL q
      (by rw [hTleave]; exact hchL) hq htemp hempty
    rw [hmove]
    refine ⟨hrem.1, ?_⟩
    rw [hrem.2]
    show Event.channelRemove c.channelId ∈
      (st.events ++ [Event.userState sid]) ++ [Event.channelRemove c.channelId]
    simp
  · intro cap2 st2 h2
    exact (reachable_chanInv cap2 st2 h2).2.1

/-- Witness for C9: in `claim9state` session 1 sits in the temporary
channel 1; moving it back to Root (channel 0) empties and removes the
temporary channel. -/
theorem claim9_witness :
    (claim9state.setClientChannel 1 0).1 = none ∧
    (∀ chL', lookupA (claim9state.setClientChannel 1 0).2.channels 1 =
        some chL' → 1 ∉ chL'.clients) ∧
    (∃ ch', lookupA (claim9state.setClientChannel 1 0).2.channels 0 = some ch' ∧
      1 ∈ ch'.clients) ∧
    (∀ chL, lookupA claim9state.channels 1 = some chL → chL.temporary = true →
      removeId chL.clients 1 = [] → (1 : Nat) ≠ 0 →
      lookupA (claim9state.setClientChannel 1 0).2.channels 1 = none ∧
      Event.channelRemove 1 ∈ (claim9state.setClientChannel 1 0).2.events) ∧
    (∀ cap2 st2, Reachable cap2 st2 →
      ∃ chR, lookupA st2.channels 0 = some chR ∧ chR.temporary = false) :=
  claim9_channel_move 4 claim9state
    (Reachable.step
      (Reachable.step
        (Reachable.step
          (Reachable.step Reachable.init
            (Step.authenticate initState ⟨0, 0⟩ 0 (by decide)))
          (Step.setChannel (initState.addClient ⟨0, 0⟩ 0).2 1 0))
        (Step.addChannel claim4base 0 "a" "d" true))
      (Step.setChannel (claim4base.addChannel 0 "a" "d" true).2 1 1))
    1 0 ⟨1, 1, none, ⟨0, 0⟩, false, 0⟩
    ⟨0, some 0, "Root", "Root channel", false, [], []⟩
    (by decide) rfl (by decide)

/-- Claim C6: in a janitor sweep over live sessions with distinct ids, a
session is queued for removal exactly when its egress mailbox is closed or
its last ping is more than 30 whole seconds old (`as_secs() > 30`);
otherwise it is queued for crypto reset exactly when its `last_good` is
more than 8000 ms old (`as_millis() > 8000`); a session queued for removal
is never queued for crypto reset; and `clean_run` performs the queued
crypto resets and disconnects only after the full scan. -/
theorem claim6_clean_run (st : ServerState) (now : Nat)
    (hnd : (st.clients.map Prod.fst).Nodup) :
    (∀ e ∈ st.clients,
      (e.1 ∈ (st.cleanScan now).1 ↔
        (e.2.pubClosed = true ∨ 30 < (now - e.2.lastPing) / 1000)) ∧
      (e.1 ∈ (st.cleanScan now).2 ↔
        (¬(e.2.pubClosed = true ∨ 30 < (now - e.2.lastPing) / 1000) ∧
          8000 < now - e.2.crypt.lastGood))) ∧
    (∀ x, x ∈ (st.cleanScan now).1 → x ∉ (st.cleanScan now).2) ∧
    st.cleanRun now =
      (st.cleanScan now).1.foldl (fun s i => s.disconnect i)
        ((st.cleanScan now).2.foldl (fun s i => s.resetClientCrypt i) st) := by
  refine ⟨?_, ?_, rfl⟩
  · intro e he
    rw [cleanScan_eq]
    constructor
    · show e.1 ∈ remQueue now st.clients ↔ _
      rw [mem_remQueue]
      constructor
      · rintro ⟨e', he', hk, hc⟩
        rw [nodup_keys_eq hnd he' he hk] at hc
        exact hc
      · intro hc
        exact ⟨e, he, rfl, hc⟩
    · show e.1 ∈ rstQueue now st.clients ↔ _
      rw [mem_rstQueue]
      constructor
      · rintro ⟨e', he', hk, hc⟩
        rw [nodup_keys_eq hnd he' he hk] at hc
        exact hc
      · intro hc
        exact ⟨e, he, rfl, hc⟩
  · intro x hr hs
    simp only [cleanScan_eq] at hr hs
    obtain ⟨e, he, rfl, hc⟩ := (mem_remQueue now st.clients x).1 hr
    obtain ⟨e', he', hk', hc'⟩ := (mem_rstQueue now st.clients e.1).1 hs
    rw [nodup_keys_eq hnd he' he hk'] at hc'
    exact absurd hc hc'.1

/-- Witness for C6: two sessions at instant 40000 ms — session 1 (last
ping at 0) is queued for removal, session 2 (last ping 35000, last good
20000) for crypto reset. -/
theorem claim6_witness :
    (∀ e ∈ claim6state.clients,
      (e.1 ∈ (claim6state.cleanScan 40000).1 ↔
        (e.2.pubClosed = true ∨ 30 < (40000 - e.2.lastPing) / 1000)) ∧
      (e.1 ∈ (claim6state.cleanScan 40000).2 ↔
        (¬(e.2.pubClosed = true ∨ 30 < (40000 - e.2.lastPing) / 1000) ∧
          8000 < 40000 - e.2.crypt.lastGood))) ∧
    (∀ x, x ∈ (claim6state.cleanScan 40000).1 →
      x ∉ (claim6state.cleanScan 40000).2) ∧
    claim6state.cleanRun 40000 =
      (claim6state.cleanScan 40000).1.foldl (fun s i => s.disconnect i)
        ((claim6state.cleanScan 40000).2.foldl
          (fun s i => s.resetClientCrypt i) claim6state) :=
  claim6_clean_run claim6state 40000 (by decide)

/-- Claim C1 is false on the code: in `claim1state` the by-socket index
maps address 5 to session 1, yet `find_client_with_decrypt` on a buffer
only session 2 can decrypt returns session 2 and removes it from the
awaiting-UDP set — the function iterated `clients_without_udp` and did not
restrict the attempt to the by-socket session. -/
theorem claim1_counterexample :
    lookupA claim1state.clientsBySocket 5 = some 1 ∧
    claim1state.clientsWithoutUdp = [2] ∧
    (claim1state.findClientWithDecrypt ⟨20, 9⟩ 5).1 = some (2, 9) ∧
    (claim1state.findClientWithDecrypt ⟨20, 9⟩ 5).2.clientsWithoutUdp = [] :=
  ⟨rfl, rfl, rfl, rfl⟩

/-- Claim C1 (amended): `find_client_with_decrypt` never consults
`clients_by_socket`: even when the by-socket index already maps the source
address to a session, the result is the first session of the awaiting-UDP
scan that decrypts the buffer (the by-socket fast path is the caller's
job, not this function's). -/
theorem claim1_amended (st : ServerState) (b : Buf) (addr : Addr) (s : Nat)
    (h : lookupA st.clientsBySocket addr = some s) :
    (st.findClientWithDecrypt b addr).1 = scanAwaiting st b := by
  rw [ServerState.findClientWithDecrypt, scanAwaiting, ← findLoop_fst st b addr]
  cases hf : ServerState.findLoop st b addr st.clientsWithoutUdp with
  | none => rfl
  | some r =>
    rcases r with ⟨⟨sid, p⟩, st'⟩
    rfl

/-- Witness for the amended C1 at `claim1state`, where address 5 is bound
to session 1. -/
theorem claim1_witness :
    lookupA claim1state.clientsBySocket 5 = some 1 ∧
    (claim1state.findClientWithDecrypt ⟨20, 9⟩ 5).1 =
      scanAwaiting claim1state ⟨20, 9⟩ :=
  ⟨rfl, claim1_amended claim1state ⟨20, 9⟩ 5 1 rfl⟩

/-- Claim C2: if a unique session of the awaiting-UDP set decrypts the
buffer, `find_client_with_decrypt` returns that session with the decoded
packet, the by-socket index now maps the source address to it, and it is
no longer awaiting UDP; if no awaiting session decrypts the buffer, the
call returns `none` and the state — in particular `clients`,
`clients_without_udp` and `clients_by_socket` — is left unchanged. -/
theorem claim2_find_client_with_decrypt (st : ServerState) (b : Buf) (addr : Addr) :
    (∀ sid c p, sid ∈ st.clientsWithoutUdp → st.getClient sid = some c →
      c.crypt.decrypt b = some p →
      (∀ s' ∈ st.clientsWithoutUdp, ∀ c', st.getClient s' = some c' →
        (c'.crypt.decrypt b).isSome → s' = sid) →
      (st.findClientWithDecrypt b addr).1 = some (sid, p) ∧
      lookupA (st.findClientWithDecrypt b addr).2.clientsBySocket addr = some sid ∧
      sid ∉ (st.findClientWithDecrypt b addr).2.clientsWithoutUdp) ∧
    ((∀ s' ∈ st.clientsWithoutUdp, ∀ c', st.getClient s' = some c' →
        c'.crypt.decrypt b = none) →
      st.findClientWithDecrypt b addr = (none, st)) := by
  constructor
  · intro sid c p hmem hc hp huniq
    have hloop := findLoop_unique st b addr st.clientsWithoutUdp sid c p hmem hc hp huniq
    refine ⟨?_, ?_, ?_⟩
    · simp [ServerState.findClientWithDecrypt, hloop]
    · simp only [ServerState.findClientWithDecrypt, hloop]
      exact setClientSocket_lookup_self hc addr
    · simp only [ServerState.findClientWithDecrypt, hloop]
      intro hmem'
      exact (mem_removeId.1 hmem').2 rfl
  · intro hnone
    simp [ServerState.findClientWithDecrypt,
      findLoop_none st b addr st.clientsWithoutUdp hnone]

/-- Witness for C2 at `claim2state` with a buffer only session 2 decrypts. -/
theorem claim2_witness :
    (claim2state.findClientWithDecrypt ⟨20, 9⟩ 5).1 = some (2, 9) ∧
    lookupA (claim2state.findClientWithDecrypt ⟨20, 9⟩ 5).2.clientsBySocket 5 =
      some 2 ∧
    2 ∉ (claim2state.findClientWithDecrypt ⟨20, 9⟩ 5).2.clientsWithoutUdp :=
  (claim2_find_client_with_decrypt claim2state ⟨20, 9⟩ 5).1 2
    ⟨2, 0, none, ⟨20, 0⟩, false, 0⟩ 9 (by decide) (by decide) (by decide)
    (by
      intro s' hs' c' hc' hd
      have hs2 : s' = 1 ∨ s' = 2 := by
        have hl : claim2state.clientsWithoutUdp = [1, 2] := rfl
        rw [hl] at hs'
        simpa using hs'
      rcases hs2 with rfl | rfl
      · have h1 : claim2state.getClient 1 =
            some ⟨1, 0, none, ⟨10, 0⟩, false, 0⟩ := rfl
        rw [h1] at hc'
        rw [Option.some_inj] at hc'
        subst hc'
        simp [CryptState.decrypt] at hd
      · rfl)

/-- Witness for C7: reset a session bound to address 5. -/
theorem claim7_witness :
    claim7witnessState.getClient 1 = some claim7witnessClient ∧
    (1 ∈ (claim7witnessState.resetClientCrypt 1).clientsWithoutUdp ∧
      (∃ c', (claim7witnessState.resetClientCrypt 1).getClient 1 = some c' ∧
        c'.udpAddr = none) ∧
      (∀ a, claim7witnessClient.udpAddr = some a →
        lookupA (claim7witnessState.resetClientCrypt 1).clientsBySocket a = none) ∧
      (claim7witnessState.resetClientCrypt 1).events =
        claim7witnessState.events ++ [Event.cryptSetup 1]) :=
  ⟨by decide,
    claim7_reset_client_crypt claim7witnessState 1 claim7witnessClient (by decide)⟩

end Zumble
